import Mathlib

/-! Chunk cache compaction and RDS instance lookup.

A shallow embedding of `cache/compaction.go` (the compaction planner
`calcCompactionTasks`, the planning loop of `Cache.compaction` and the worker
step `Cache.compact`) and of `constructor/rds.go` (`getOrCreateRdsInstance`
and the head of the `loadRds` loop body), followed by the properties proved
about them.

Conventions of the embedding:

* `timeseries.Time` and `timeseries.Duration` are `int64` seconds in the
  source.  They are embedded as `Int`; timestamps in seconds stay far from
  the `int64` range, so no wrap-around is modelled.  Go's `/` and `%` on
  integers round toward zero: they are `Int.tdiv` and `Int.tmod`.
* A Go `map[K]V` is embedded as an association list `List (K × V)`; iteration
  (`range`) visits the entries in list order.  Go leaves the iteration order
  unspecified, and every theorem below is stated for an arbitrary list, hence
  for every order.
* Pointers are embedded as values.
* A run-time panic (integer division by zero, nil dereference) is the value
  `none` of an `Option`.
-/

namespace Coroot

/-! ## The planner `calcCompactionTasks` -/

/-- Seconds since the epoch (`timeseries.Time`, an `int64`). -/
abbrev Time := Int

/-- A number of seconds (`timeseries.Duration`, an `int64`). -/
abbrev Duration := Int

/-- The method `timeseries.Time.Add`: the timestamp shifted by a duration. -/
def Time.Add (t : Time) (d : Duration) : Time := t + d

/-- Modelled from the spec: `timeseries.Time.Truncate` is not part of the
sources at hand.  The spec uses it as "truncated_to dst_duration"; it is taken
here with Go integer semantics, `t - t % d`, the remainder having the sign of
`t`.  For `0 ≤ t` and `0 < d` this is the largest multiple of `d` that is at
most `t`.  The configuration takes positive durations only; with `d = 0` the
value here is 0, and a destination duration of 0 yields no task whatever this
value is. -/
def Time.Truncate (t : Time) (d : Duration) : Time := t - Int.tmod t d

/-- The descriptor `ChunkInfo` of a chunk file.  Its declaration is not part of
the sources at hand; it is taken with the fields the compaction code reads:
`path`, `ts`, `duration`, `step`, `lastTs`. -/
structure ChunkInfo where
  path : String
  ts : Time
  duration : Duration
  step : Duration
  lastTs : Time
deriving DecidableEq, Repr

/-- The configuration record `Compactor`. -/
structure Compactor where
  SrcChunkDuration : Duration
  DstChunkDuration : Duration
deriving DecidableEq, Repr

/-- The record `CompactionTask`. -/
structure CompactionTask where
  queryHash : String
  dstChunk : Time
  src : List ChunkInfo
  compactor : Compactor
deriving DecidableEq, Repr

/-- The configuration record `CompactionConfig`; `Interval` is a
`time.Duration`, in nanoseconds. -/
structure CompactionConfig where
  Interval : Int
  WorkersNum : Int
  Compactors : List Compactor
deriving DecidableEq, Repr

/-- The variable `DefaultCompactionConfig`. -/
def DefaultCompactionConfig : CompactionConfig :=
  { Interval := 60 * 1000000000 * 10,
    WorkersNum := 1,
    Compactors :=
      [ { SrcChunkDuration := 3600, DstChunkDuration := 4 * 3600 },
        { SrcChunkDuration := 4 * 3600, DstChunkDuration := 12 * 3600 } ] }

/-- The test of line 62 of `compaction.go`: the chunk is complete when its
last written column is the last column of its range. -/
def ChunkInfo.complete (chunk : ChunkInfo) : Prop :=
  chunk.lastTs = chunk.ts.Add (chunk.duration - chunk.step)

instance (chunk : ChunkInfo) : Decidable chunk.complete := by
  unfold ChunkInfo.complete; infer_instance

/-- The expression of line 65: the destination timestamp of a chunk. -/
def dstChunkTs (compactor : Compactor) (jitter : Duration) (chunk : ChunkInfo) : Time :=
  ((chunk.ts.Add (-jitter)).Truncate compactor.DstChunkDuration).Add jitter

/-- Lines 66 to 75: look the destination timestamp up in the `tasks` map,
create the task when it is absent, and append the chunk to the task's
sources. -/
def addToTask (queryHash : String) (compactor : Compactor) (dst : Time) (chunk : ChunkInfo) :
    List CompactionTask → List CompactionTask
  | [] => [{ queryHash := queryHash, dstChunk := dst, src := [chunk], compactor := compactor }]
  | task :: rest =>
    if task.dstChunk = dst then { task with src := task.src ++ [chunk] } :: rest
    else task :: addToTask queryHash compactor dst chunk rest

/-- The body of the first loop of `calcCompactionTasks` (lines 59 to 75). -/
def groupChunk (compactor : Compactor) (queryHash : String) (jitter : Duration)
    (tasks : List CompactionTask) (chunk : ChunkInfo) : List CompactionTask :=
  if chunk.duration ≠ compactor.SrcChunkDuration then tasks
  else if ¬ chunk.complete then tasks
  else addToTask queryHash compactor (dstChunkTs compactor jitter chunk) chunk tasks

/-- The first loop of `calcCompactionTasks` (lines 56 to 76), from an empty
`tasks` map. -/
def groupChunks (compactor : Compactor) (queryHash : String) (jitter : Duration)
    (chunks : List ChunkInfo) : List CompactionTask :=
  chunks.foldl (groupChunk compactor queryHash jitter) []

/-- The second loop of `calcCompactionTasks` (lines 77 to 83).  The quotient
`DstChunkDuration/SrcChunkDuration` is evaluated at every iteration, and Go
panics on an integer division by zero. -/
def selectFull (compactor : Compactor) : List CompactionTask → Option (List CompactionTask)
  | [] => some []
  | task :: rest =>
    if compactor.SrcChunkDuration = 0 then none
    else
      match selectFull compactor rest with
      | none => none
      | some res =>
        if (task.src.length : Int) = Int.tdiv compactor.DstChunkDuration compactor.SrcChunkDuration
        then some (task :: res) else some res

/-- The function `calcCompactionTasks`.  `queryJitter` is not part of the
sources at hand and is a parameter: it gives the jitter of a query hash, in
seconds.  `chunks` is the map from path to `ChunkInfo`. -/
def calcCompactionTasks (queryJitter : String → Duration) (compactor : Compactor)
    (queryHash : String) (chunks : List (String × ChunkInfo)) : Option (List CompactionTask) :=
  selectFull compactor
    (groupChunks compactor queryHash (queryJitter queryHash) (chunks.map Prod.snd))

/-! ## The cache, the planning loop and the worker step -/

/-- The per-query record `QueryData`: `chunksOnDisk` maps the path of a chunk
file to its `ChunkInfo`. -/
structure QueryData where
  chunksOnDisk : List (String × ChunkInfo)
deriving DecidableEq, Repr

/-- The state that `Cache.compaction` and `Cache.compact` read and change:
the catalog `data`, from query hash to `QueryData`; the counter vector
`compactedChunks`, by source and destination duration; the gauge
`pendingCompactions`; and `disk`, the paths of the chunk files present in the
cache directory. -/
structure Cache where
  data : List (String × QueryData)
  compactedChunks : Duration → Duration → Nat
  pendingCompactions : Int
  disk : List String

/-- The chunk under construction returned by `NewChunk`, with the fields
`compact` reads back (`from`, `to`, `step`) and the duration; `from` and `to`
are reserved words here, hence the underscores. -/
structure Chunk where
  from_ : Time
  to_ : Time
  duration : Duration
  step : Duration
deriving DecidableEq, Repr

/-- The constructor `NewChunk(from, to, duration, step, buf)`; the scratch
buffer holds sample bytes and is left out. -/
def NewChunk (from_ to_ : Time) (duration step : Duration) : Chunk :=
  { from_ := from_, to_ := to_, duration := duration, step := step }

/-- The fingerprints of the series in the `metrics` map of `compact`
(`map[uint64]model.MetricValues`); the sample values are floating point and
are left out. -/
abbrev Metrics := List Nat

/-- The outcomes of the file operations of one call of `compact`, which the
code cannot determine: whether `NewChunkFromInfo` opens a source, what
`ReadMetrics` reads from it for the destination range (`none` for an error),
whether `WriteMetric` accepts a series, whether the file part of `saveChunk`
succeeds and under which path, and whether `os.Remove` unlinks a path. -/
structure Env where
  openChunk : ChunkInfo → Bool
  readMetrics : ChunkInfo → Time → Time → Duration → Option Metrics
  writeMetric : Nat → Bool
  persist : String → Chunk → Option String
  remove : String → Bool

/-- One pass of the insertion that `sortByTs` repeats. -/
def insertByTs (c : ChunkInfo) : List ChunkInfo → List ChunkInfo
  | [] => [c]
  | d :: rest => if c.ts ≤ d.ts then c :: d :: rest else d :: insertByTs c rest

/-- The call `sort.Slice(t.src, less)` of lines 129 to 131, `less` comparing
`ts`: the sources in ascending order of `ts`.  `sort.Slice` leaves the order
of sources of equal `ts` open; this embedding keeps their order. -/
def sortByTs : List ChunkInfo → List ChunkInfo
  | [] => []
  | c :: rest => insertByTs c (sortByTs rest)

/-- The loop of lines 140 to 150: open each source, read its metrics into the
accumulator, stop at the first failure. -/
def readSources (env : Env) (dst : Chunk) : List ChunkInfo → Metrics → Except String Metrics
  | [], metrics => .ok metrics
  | i :: rest, metrics =>
    if env.openChunk i = false then .error "failed to open chunk for compaction"
    else
      match env.readMetrics i dst.from_ dst.to_ dst.step with
      | none => .error "failed to read metrics from src chunk for compaction"
      | some ms => readSources env dst rest (metrics ++ ms.filter (fun m => decide (m ∉ metrics)))

/-- The loop of lines 152 to 156: write every accumulated series, stop at the
first failure. -/
def writeMetrics (env : Env) : Metrics → Except String Unit
  | [] => .ok ()
  | m :: rest => if env.writeMetric m = false then .error "failed to write metric"
    else writeMetrics env rest

/-- The lookup `c.data[queryHash]`. -/
def lookupQuery (queryHash : String) : List (String × QueryData) → Option QueryData
  | [] => none
  | (q, qd) :: rest => if q = queryHash then some qd else lookupQuery queryHash rest

/-- The lookup `c.data[queryHash]` in a cache. -/
def Cache.queryData (c : Cache) (queryHash : String) : Option QueryData :=
  lookupQuery queryHash c.data

/-- An in-place update of the `QueryData` of one query hash. -/
def updateQuery (queryHash : String) (f : QueryData → QueryData) :
    List (String × QueryData) → List (String × QueryData)
  | [] => []
  | (q, qd) :: rest =>
    if q = queryHash then (q, f qd) :: updateQuery queryHash f rest
    else (q, qd) :: updateQuery queryHash f rest

/-- The assignment `chunksOnDisk[path] = info`. -/
def QueryData.put (info : ChunkInfo) (qd : QueryData) : QueryData :=
  { chunksOnDisk := (info.path, info) :: qd.chunksOnDisk.filter (fun kv => decide (kv.1 ≠ info.path)) }

/-- The statement `delete(qData.chunksOnDisk, path)`. -/
def QueryData.delete (path : String) (qd : QueryData) : QueryData :=
  { chunksOnDisk := qd.chunksOnDisk.filter (fun kv => decide (kv.1 ≠ path)) }

/-- Modelled from the spec: the method `Cache.saveChunk` is not part of the
sources at hand.  After the spec (4.5 step 5, 4.2 `register`, 7) it persists
the destination file under its final name and registers its `ChunkInfo` in the
catalog under the query hash, idempotently by path; when persisting fails the
destination is discarded and the catalog is unchanged.  The registered
`last_ts` is the chunk's `to`, as in scenario S1.  For a query hash without
`QueryData` the catalog is left as it is, the case `compact` reports as
"query data not found". -/
def saveChunk (env : Env) (c : Cache) (queryHash : String) (chunk : Chunk) :
    Except String Cache :=
  match env.persist queryHash chunk with
  | none => .error "failed to save chunk"
  | some path =>
    .ok { c with
      disk := path :: c.disk.filter (fun p => decide (p ≠ path))
      data := updateQuery queryHash
        (QueryData.put { path := path, ts := chunk.from_, duration := chunk.duration,
                         step := chunk.step, lastTs := chunk.to_ }) c.data }

/-- The loop of lines 168 to 174 for a query with `QueryData`: unlink each
source file, an unlink failure being logged only, and delete the source from
`chunksOnDisk`. -/
def removeSources (env : Env) (queryHash : String) : List ChunkInfo → Cache → Cache
  | [], c => c
  | src :: rest, c =>
    removeSources env queryHash rest
      { c with
        disk := if env.remove src.path then c.disk.filter (fun p => decide (p ≠ src.path))
                else c.disk
        data := updateQuery queryHash (QueryData.delete src.path) c.data }

/-- The increment of `compactedChunks` for the label pair of a compactor. -/
def incCompacted (compactor : Compactor) (counter : Duration → Duration → Nat) :
    Duration → Duration → Nat :=
  fun s d =>
    if s = compactor.SrcChunkDuration ∧ d = compactor.DstChunkDuration then counter s d + 1
    else counter s d

/-- The destination chunk built at lines 132 to 139 from the sorted sources. -/
def dstOf (t : CompactionTask) (first : ChunkInfo) : Chunk :=
  NewChunk t.dstChunk (t.dstChunk.Add (t.compactor.DstChunkDuration - first.step))
    t.compactor.DstChunkDuration first.step

/-- The method `Cache.compact`: the result (`nil` or an error) and the state
after the call.  The test `len(t.src) == 0` of line 124 is made on the sorted
sources, which are empty exactly when `t.src` is; `first` is `t.src[0]` after
the sort. -/
def compact (env : Env) (c : Cache) (t : CompactionTask) : Except String Unit × Cache :=
  match sortByTs t.src with
  | [] => (.error "no src chunks", c)
  | first :: rest =>
    let dst := dstOf t first
    match readSources env dst (first :: rest) [] with
    | .error e => (.error e, c)
    | .ok metrics =>
      match writeMetrics env metrics with
      | .error e => (.error e, c)
      | .ok _ =>
        match saveChunk env c t.queryHash dst with
        | .error e => (.error e, c)
        | .ok c1 =>
          let c2 := match c1.queryData t.queryHash with
            | none => c1
            | some _ => removeSources env t.queryHash (first :: rest) c1
          (.ok (), { c2 with compactedChunks := incCompacted t.compactor c2.compactedChunks })

/-- The nested loop of lines 111 to 113 for one query: the tasks of every
compactor, appended. -/
def planQuery (queryJitter : String → Duration) (queryHash : String) (qData : QueryData) :
    List Compactor → Option (List CompactionTask)
  | [] => some []
  | cfg :: rest =>
    match calcCompactionTasks queryJitter cfg queryHash qData.chunksOnDisk with
    | none => none
    | some tasks =>
      match planQuery queryJitter queryHash qData rest with
      | none => none
      | some more => some (tasks ++ more)

/-- The loop of lines 110 to 114 over the catalog. -/
def planTasks (queryJitter : String → Duration) (compactors : List Compactor) :
    List (String × QueryData) → Option (List CompactionTask)
  | [] => some []
  | (queryHash, qData) :: rest =>
    match planQuery queryJitter queryHash qData compactors with
    | none => none
    | some tasks =>
      match planTasks queryJitter compactors rest with
      | none => none
      | some more => some (tasks ++ more)

/-- One iteration of the planning loop of `Cache.compaction` (lines 106 to
119): the tasks handed to the workers, in order, and the state afterwards.
The loop reads the catalog and sets the gauge `pendingCompactions`, whose
last value is 0 when a task was sent. -/
def compactionIteration (queryJitter : String → Duration) (cfg : CompactionConfig)
    (c : Cache) : Option (List CompactionTask × Cache) :=
  match planTasks queryJitter cfg.Compactors c.data with
  | none => none
  | some tasks =>
    some (tasks, { c with pendingCompactions := if tasks = [] then c.pendingCompactions else 0 })

/-! ## The RDS instance lookup of the constructor -/

/-- The characters before and after the first occurrence of `sep`, none when
`sep` does not occur. -/
def splitFirst (sep : Char) : List Char → Option (List Char × List Char)
  | [] => none
  | ch :: rest =>
    if ch = sep then some ([], rest)
    else
      match splitFirst sep rest with
      | none => none
      | some (before, after) => some (ch :: before, after)

/-- The call `strings.SplitN(s, "/", 2)` of the Go standard library: the text
before the first `/` and the unsplit remainder, or the string itself when it
has no `/`. -/
def SplitN2 (s : String) : List String :=
  match splitFirst '/' s.data with
  | none => [s]
  | some (before, after) => [String.mk before, String.mk after]

/-- The function `getOrCreateRdsInstance`; `none` is the nil pointer.  The
world `W`, the instance `I` and the call
`w.GetOrCreateApplication(id).GetOrCreateInstance(name)`, where `id` is the
RDS application id made of `name`, belong to the package `model`, which is not
part of the sources at hand: they are parameters, the call returning the pair
of the instance and the updated world. -/
def getOrCreateRdsInstance {W I : Type} (getOrCreateInstance : W → String → I × W)
    (w : W) (rdsId : String) : Option I × W :=
  match SplitN2 rdsId with
  | [_, name] =>
    let r := getOrCreateInstance w name
    (some r.1, r.2)
  | _ => (none, w)

/-- The head of the body of the inner loop of `loadRds` (lines 25 to 30) for
one metric with the given labels: the `continue` on an empty
`rds_instance_id`, the lookup of the instance, and the first access
`instance.Rds`, which panics on a nil instance (`none`).  The updates of the
fields that follow in the body are not embedded; the result is the world after
the lookup. -/
def loadRdsMetric {W I : Type} (getOrCreateInstance : W → String → I × W)
    (w : W) (labels : List (String × String)) : Option W :=
  let rdsId := (labels.lookup "rds_instance_id").getD ""
  if rdsId = "" then some w
  else
    match getOrCreateRdsInstance getOrCreateInstance w rdsId with
    | (none, _) => none
    | (some _, w1) => some w1

/-- The loops of `loadRds` (lines 20 to 125) over the metrics of the
`aws_rds_` queries, each given by its labels, in the order they are visited;
`none` when the body panics on one of them. -/
def loadRds {W I : Type} (getOrCreateInstance : W → String → I × W) (w : W) :
    List (List (String × String)) → Option W
  | [] => some w
  | labels :: rest =>
    match loadRdsMetric getOrCreateInstance w labels with
    | none => none
    | some w1 => loadRds getOrCreateInstance w1 rest

/-! ## Notions used to state the properties -/

/-- The chunks of a list that the first loop puts into the bucket `dst`: those
of the source duration that are complete and whose destination timestamp is
`dst`, in the order of the list. -/
def bucketSrc (compactor : Compactor) (jitter : Duration) (dst : Time)
    (chunks : List ChunkInfo) : List ChunkInfo :=
  chunks.filter (fun c => decide (c.duration = compactor.SrcChunkDuration ∧ c.complete ∧
    dstChunkTs compactor jitter c = dst))

/-- The state of the `tasks` map after the first loop has visited `chunks`. -/
structure GroupInv (compactor : Compactor) (queryHash : String) (jitter : Duration)
    (chunks : List ChunkInfo) (tasks : List CompactionTask) : Prop where
  nodup : (tasks.map CompactionTask.dstChunk).Nodup
  covered : ∀ c ∈ chunks, c.duration = compactor.SrcChunkDuration → c.complete →
    dstChunkTs compactor jitter c ∈ tasks.map CompactionTask.dstChunk
  task : ∀ t ∈ tasks, t.queryHash = queryHash ∧ t.compactor = compactor ∧ t.src ≠ [] ∧
    t.src = bucketSrc compactor jitter t.dstChunk chunks

/-- The test of line 79, as a Boolean. -/
def isFull (compactor : Compactor) (task : CompactionTask) : Bool :=
  decide ((task.src.length : Int) =
    Int.tdiv compactor.DstChunkDuration compactor.SrcChunkDuration)

/-- The chunks of the source duration whose destination timestamp is `dst`,
complete or not. -/
def bucketCandidates (compactor : Compactor) (jitter : Duration) (dst : Time)
    (chunks : List (String × ChunkInfo)) : List ChunkInfo :=
  (chunks.map Prod.snd).filter (fun c =>
    decide (c.duration = compactor.SrcChunkDuration ∧ dstChunkTs compactor jitter c = dst))

/-- The index of the slot a source chunk occupies in the destination window
starting at `dst`. -/
def slotOf (compactor : Compactor) (dst : Time) (c : ChunkInfo) : Nat :=
  ((c.ts - dst) / compactor.SrcChunkDuration).toNat

/-- The keys of `c.data[queryHash].chunksOnDisk`, none for a query hash
without `QueryData`. -/
def Cache.paths (c : Cache) (queryHash : String) : List String :=
  match c.queryData queryHash with
  | none => []
  | some qd => qd.chunksOnDisk.map Prod.fst

/-- The task of the bucket `dst` over a list of chunks. -/
def bucketTask (compactor : Compactor) (queryHash : String) (jitter : Duration)
    (chunks : List ChunkInfo) (dst : Time) : CompactionTask :=
  { queryHash := queryHash, dstChunk := dst, src := bucketSrc compactor jitter dst chunks,
    compactor := compactor }

/-- Two tasks that differ at most in the order of their sources. -/
def taskEquiv (t u : CompactionTask) : Prop :=
  t.queryHash = u.queryHash ∧ t.dstChunk = u.dstChunk ∧ t.compactor = u.compactor ∧
    t.src.Perm u.src

/-- Two lists of tasks that hold the same tasks, each as often, up to the order
of the tasks and the order of the sources of each task. -/
def sameTasks (ts us : List CompactionTask) : Prop :=
  ∃ l, ts.Perm l ∧ List.Forall₂ taskEquiv l us

/-- Two entries of the catalog for one query hash whose `chunksOnDisk` hold the
same entries, visited in two orders. -/
def sameQuery (a b : String × QueryData) : Prop :=
  a.1 = b.1 ∧ a.2.chunksOnDisk.Perm b.2.chunksOnDisk

/-- One catalog visited in two orders: Go fixes no iteration order for the map
`data` nor for the maps `chunksOnDisk`, and two `range` loops over an
unchanged map may visit it differently. -/
def sameCatalog (d e : List (String × QueryData)) : Prop :=
  ∃ l, d.Perm l ∧ List.Forall₂ sameQuery l e

/-! ## The scenarios of the spec and further examples -/

/-- A complete chunk of duration 3600 and step 60 starting at `ts`. -/
def hourChunk (path : String) (ts : Time) : ChunkInfo :=
  { path := path, ts := ts, duration := 3600, step := 60, lastTs := ts + 3540 }

/-- A complete chunk of duration 14400 and step 60 starting at `ts`. -/
def hourChunk4 (path : String) (ts : Time) : ChunkInfo :=
  { path := path, ts := ts, duration := 14400, step := 60, lastTs := ts + 14340 }

/-- The compactor of the scenarios: one-hour chunks into four-hour chunks. -/
def hourly : Compactor := { SrcChunkDuration := 3600, DstChunkDuration := 14400 }

/-- The catalog of scenario S1: four complete one-hour chunks from 0. -/
def chunksS1 : List (String × ChunkInfo) :=
  [("a", hourChunk "a" 0), ("b", hourChunk "b" 3600),
   ("c", hourChunk "c" 7200), ("d", hourChunk "d" 10800)]

/-- The catalog of scenario S2: as S1, the fourth chunk lacking its last
column. -/
def chunksS2 : List (String × ChunkInfo) :=
  [("a", hourChunk "a" 0), ("b", hourChunk "b" 3600), ("c", hourChunk "c" 7200),
   ("d", { path := "d", ts := 10800, duration := 3600, step := 60, lastTs := 10740 })]

/-- The catalog of scenario S3: four complete one-hour chunks from 137. -/
def chunksS3 : List (String × ChunkInfo) :=
  [("a", hourChunk "a" 137), ("b", hourChunk "b" 3737),
   ("c", hourChunk "c" 7337), ("d", hourChunk "d" 10937)]

/-- The catalog of S1 with the fourth chunk scraped at a step of 30 seconds;
the chunk is complete for its own step. -/
def chunksMixedStep : List (String × ChunkInfo) :=
  [("a", hourChunk "a" 0), ("b", hourChunk "b" 3600), ("c", hourChunk "c" 7200),
   ("d", { path := "d", ts := 10800, duration := 3600, step := 30, lastTs := 14370 })]

/-- The cache of scenario S1: the query Q with its four chunks on disk. -/
def cacheS1 : Cache :=
  { data := [("Q", { chunksOnDisk := chunksS1 })], compactedChunks := fun _ _ => 0,
    pendingCompactions := 0, disk := ["a", "b", "c", "d"] }

/-- The task the planner returns in scenario S1. -/
def taskS1 : CompactionTask :=
  { queryHash := "Q", dstChunk := 0, src := chunksS1.map Prod.snd, compactor := hourly }

/-- The cache of S1 with the fourth chunk of step 30. -/
def cacheMixedStep : Cache :=
  { data := [("Q", { chunksOnDisk := chunksMixedStep })], compactedChunks := fun _ _ => 0,
    pendingCompactions := 0, disk := ["a", "b", "c", "d"] }

/-- The task the planner returns for `chunksMixedStep`. -/
def taskMixedStep : CompactionTask :=
  { queryHash := "Q", dstChunk := 0, src := chunksMixedStep.map Prod.snd, compactor := hourly }

/-- An environment in which every file operation succeeds; each source holds
the two series 1 and 2, and the destination is stored as `Q/dst`. -/
def envOk : Env :=
  { openChunk := fun _ => true, readMetrics := fun _ _ _ _ => some [1, 2],
    writeMetric := fun _ => true, persist := fun _ _ => some "Q/dst", remove := fun _ => true }

/-- As `envOk`, with `saveChunk` failing. -/
def envSaveFails : Env := { envOk with persist := fun _ _ => none }

/-- As `envOk`, with `os.Remove` failing for every path. -/
def envUnlinkFails : Env := { envOk with remove := fun _ => false }

/-- As `envOk`, with `ReadMetrics` failing on the chunk `c`. -/
def envReadFails : Env :=
  { envOk with readMetrics := fun i _ _ _ => if i.path = "c" then none else some [1, 2] }

/-- The planner on the catalog of scenario S1, jitter 0. -/
def jitterZero : String → Duration := fun _ => 0

/-- A world that is the list of its instance names, for the examples. -/
def namesWorld (w : List String) (name : String) : String × List String :=
  (name, if name ∈ w then w else w ++ [name])

/-- The cache of S1 with the chunks of Q visited from the last to the first. -/
def cacheS1Reversed : Cache :=
  { data := [("Q", { chunksOnDisk := chunksS1.reverse })], compactedChunks := fun _ _ => 0,
    pendingCompactions := 0, disk := ["a", "b", "c", "d"] }

/-! # Properties -/

/-! ## The planner: what the buckets hold -/

theorem addToTask_keys (queryHash : String) (compactor : Compactor) (dst : Time)
    (chunk : ChunkInfo) (tasks : List CompactionTask) :
    (addToTask queryHash compactor dst chunk tasks).map CompactionTask.dstChunk =
      if dst ∈ tasks.map CompactionTask.dstChunk then tasks.map CompactionTask.dstChunk
      else tasks.map CompactionTask.dstChunk ++ [dst] := by
  induction tasks with
  | nil => simp [addToTask]
  | cons t rest ih =>
    by_cases h : t.dstChunk = dst
    · simp [addToTask, h]
    · have h2 : ¬ dst = t.dstChunk := fun e => h e.symm
      by_cases hm : dst ∈ rest.map CompactionTask.dstChunk
      · simp only [addToTask, h, if_false, List.map_cons, ih, hm, if_true, List.mem_cons, or_true]
      · simp only [addToTask, h, if_false, List.map_cons, ih, hm, List.mem_cons, h2, or_self,
          List.cons_append]

theorem addToTask_mem (queryHash : String) (compactor : Compactor) (dst : Time)
    (chunk : ChunkInfo) (tasks : List CompactionTask)
    (hnd : (tasks.map CompactionTask.dstChunk).Nodup) (t : CompactionTask)
    (h : t ∈ addToTask queryHash compactor dst chunk tasks) :
    (t ∈ tasks ∧ t.dstChunk ≠ dst) ∨
    (∃ u ∈ tasks, u.dstChunk = dst ∧ t = { u with src := u.src ++ [chunk] }) ∨
    (dst ∉ tasks.map CompactionTask.dstChunk ∧
      t = { queryHash := queryHash, dstChunk := dst, src := [chunk], compactor := compactor }) := by
  induction tasks with
  | nil =>
    simp only [addToTask, List.mem_singleton] at h
    exact Or.inr (Or.inr ⟨by simp, h⟩)
  | cons u rest ih =>
    rw [List.map_cons, List.nodup_cons] at hnd
    by_cases hu : u.dstChunk = dst
    · simp only [addToTask, hu, if_true, List.mem_cons] at h
      rcases h with h | h
      · exact Or.inr (Or.inl ⟨u, List.mem_cons_self _ _, hu, by rw [h, hu]⟩)
      · refine Or.inl ⟨List.mem_cons_of_mem _ h, fun ht => hnd.1 ?_⟩
        rw [hu, ← ht]
        exact List.mem_map_of_mem _ h
    · simp only [addToTask, hu, if_false, List.mem_cons] at h
      rcases h with h | h
      · exact Or.inl ⟨by rw [h]; exact List.mem_cons_self _ _, by rw [h]; exact hu⟩
      · rcases ih hnd.2 h with ⟨h1, h2⟩ | ⟨v, hv, h1, h2⟩ | ⟨h1, h2⟩
        · exact Or.inl ⟨List.mem_cons_of_mem _ h1, h2⟩
        · exact Or.inr (Or.inl ⟨v, List.mem_cons_of_mem _ hv, h1, h2⟩)
        · refine Or.inr (Or.inr ⟨?_, h2⟩)
          simp only [List.map_cons, List.mem_cons, not_or]
          exact ⟨fun e => hu e.symm, h1⟩

theorem bucketSrc_append (compactor : Compactor) (jitter : Duration) (dst : Time)
    (chunks : List ChunkInfo) (c : ChunkInfo) :
    bucketSrc compactor jitter dst (chunks ++ [c]) =
      if c.duration = compactor.SrcChunkDuration ∧ c.complete ∧ dstChunkTs compactor jitter c = dst
      then bucketSrc compactor jitter dst chunks ++ [c]
      else bucketSrc compactor jitter dst chunks := by
  unfold bucketSrc
  rw [List.filter_append]
  by_cases h : c.duration = compactor.SrcChunkDuration ∧ c.complete ∧
      dstChunkTs compactor jitter c = dst
  · rw [if_pos h, List.filter_cons_of_pos (by simpa using h), List.filter_nil]
  · rw [if_neg h, List.filter_cons_of_neg (by simpa using h), List.filter_nil, List.append_nil]

theorem bucketSrc_eq_nil (compactor : Compactor) (jitter : Duration) (dst : Time)
    (chunks : List ChunkInfo)
    (h : ∀ c ∈ chunks, c.duration = compactor.SrcChunkDuration → c.complete →
      dstChunkTs compactor jitter c ≠ dst) :
    bucketSrc compactor jitter dst chunks = [] := by
  unfold bucketSrc
  rw [List.filter_eq_nil_iff]
  intro c hc hp
  simp only [decide_eq_true_eq] at hp
  exact h c hc hp.1 hp.2.1 hp.2.2

theorem GroupInv.skip {compactor : Compactor} {queryHash : String} {jitter : Duration}
    {chunks : List ChunkInfo} {tasks : List CompactionTask}
    (inv : GroupInv compactor queryHash jitter chunks tasks) (c : ChunkInfo)
    (h : ¬ (c.duration = compactor.SrcChunkDuration ∧ c.complete)) :
    GroupInv compactor queryHash jitter (chunks ++ [c]) tasks where
  nodup := inv.nodup
  covered := by
    intro d hd h1 h2
    rcases List.mem_append.1 hd with hd | hd
    · exact inv.covered d hd h1 h2
    · rw [List.mem_singleton] at hd
      subst hd
      exact absurd ⟨h1, h2⟩ h
  task := by
    intro t ht
    obtain ⟨h1, h2, h3, h4⟩ := inv.task t ht
    refine ⟨h1, h2, h3, ?_⟩
    rw [bucketSrc_append, if_neg (fun hh => h ⟨hh.1, hh.2.1⟩)]
    exact h4

theorem GroupInv.add {compactor : Compactor} {queryHash : String} {jitter : Duration}
    {chunks : List ChunkInfo} {tasks : List CompactionTask}
    (inv : GroupInv compactor queryHash jitter chunks tasks) (c : ChunkInfo)
    (hd : c.duration = compactor.SrcChunkDuration) (hc : c.complete) :
    GroupInv compactor queryHash jitter (chunks ++ [c])
      (addToTask queryHash compactor (dstChunkTs compactor jitter c) c tasks) where
  nodup := by
    rw [addToTask_keys]
    split
    · exact inv.nodup
    · rename_i hn
      exact List.Nodup.append inv.nodup (List.nodup_singleton _) (by simpa using hn)
  covered := by
    intro d hdm h1 h2
    rw [addToTask_keys]
    rcases List.mem_append.1 hdm with hdm | hdm
    · have := inv.covered d hdm h1 h2
      split
      · exact this
      · exact List.mem_append_left _ this
    · rw [List.mem_singleton] at hdm
      subst hdm
      split
      · assumption
      · simp
  task := by
    intro t ht
    rcases addToTask_mem queryHash compactor _ c tasks inv.nodup t ht with
      ⟨h1, h2⟩ | ⟨u, hu, h1, h2⟩ | ⟨h1, h2⟩
    · obtain ⟨a1, a2, a3, a4⟩ := inv.task t h1
      refine ⟨a1, a2, a3, ?_⟩
      rw [bucketSrc_append, if_neg (fun hh => h2 hh.2.2.symm)]
      exact a4
    · obtain ⟨a1, a2, _, a4⟩ := inv.task u hu
      subst h2
      refine ⟨a1, a2, by simp, ?_⟩
      show u.src ++ [c] = bucketSrc compactor jitter u.dstChunk (chunks ++ [c])
      rw [bucketSrc_append, if_pos ⟨hd, hc, h1.symm⟩, ← a4]
    · subst h2
      refine ⟨rfl, rfl, by simp, ?_⟩
      show [c] = bucketSrc compactor jitter (dstChunkTs compactor jitter c) (chunks ++ [c])
      rw [bucketSrc_append, if_pos ⟨hd, hc, rfl⟩, bucketSrc_eq_nil, List.nil_append]
      intro d hdm e1 e2 e3
      exact h1 (e3 ▸ inv.covered d hdm e1 e2)

theorem groupChunks_inv (compactor : Compactor) (queryHash : String) (jitter : Duration)
    (chunks : List ChunkInfo) :
    GroupInv compactor queryHash jitter chunks (groupChunks compactor queryHash jitter chunks) := by
  induction chunks using List.reverseRecOn with
  | nil => exact ⟨by simp [groupChunks], by simp, by simp [groupChunks]⟩
  | append_singleton l c ih =>
    unfold groupChunks at ih ⊢
    rw [List.foldl_append, List.foldl_cons, List.foldl_nil]
    unfold groupChunk
    by_cases hd : c.duration = compactor.SrcChunkDuration
    · by_cases hc : c.complete
      · rw [if_neg (not_not.2 hd), if_neg (not_not.2 hc)]
        exact ih.add c hd hc
      · rw [if_neg (not_not.2 hd), if_pos hc]
        exact ih.skip c (fun h => hc h.2)
    · rw [if_pos hd]
      exact ih.skip c (fun h => hd h.1)

theorem selectFull_eq_filter (compactor : Compactor) (tasks res : List CompactionTask)
    (h : selectFull compactor tasks = some res) : res = tasks.filter (isFull compactor) := by
  induction tasks generalizing res with
  | nil =>
    simp only [selectFull, Option.some.injEq] at h
    simp [← h]
  | cons t rest ih =>
    unfold selectFull at h
    by_cases h0 : compactor.SrcChunkDuration = 0
    · rw [if_pos h0] at h
      exact absurd h (by simp)
    · rw [if_neg h0] at h
      cases hr : selectFull compactor rest with
      | none => rw [hr] at h; exact absurd h (by simp)
      | some r =>
        rw [hr] at h
        have hrr := ih r hr
        by_cases hf : (t.src.length : Int) =
            Int.tdiv compactor.DstChunkDuration compactor.SrcChunkDuration
        · simp only [hf, if_true, Option.some.injEq] at h
          rw [← h, hrr, List.filter_cons_of_pos (by simpa [isFull] using hf)]
        · simp only [hf, if_false, Option.some.injEq] at h
          rw [← h, hrr, List.filter_cons_of_neg (by simpa [isFull] using hf)]

theorem selectFull_total (compactor : Compactor) (tasks : List CompactionTask)
    (h0 : compactor.SrcChunkDuration ≠ 0) :
    selectFull compactor tasks = some (tasks.filter (isFull compactor)) := by
  induction tasks with
  | nil => simp [selectFull]
  | cons t rest ih =>
    unfold selectFull
    rw [if_neg h0, ih]
    by_cases hf : (t.src.length : Int) =
        Int.tdiv compactor.DstChunkDuration compactor.SrcChunkDuration
    · simp only [hf, if_true]
      rw [List.filter_cons_of_pos (by simpa [isFull] using hf)]
    · simp only [hf, if_false]
      rw [List.filter_cons_of_neg (by simpa [isFull] using hf)]

/-- With a non-zero source duration the planner returns. -/
theorem calcCompactionTasks_total (queryJitter : String → Duration) (compactor : Compactor)
    (queryHash : String) (chunks : List (String × ChunkInfo))
    (h0 : compactor.SrcChunkDuration ≠ 0) :
    ∃ res, calcCompactionTasks queryJitter compactor queryHash chunks = some res :=
  ⟨_, selectFull_total compactor _ h0⟩

/-- What a returned task is: the whole bucket of its destination timestamp,
and that bucket is full. -/
theorem calcCompactionTasks_task (queryJitter : String → Duration) (compactor : Compactor)
    (queryHash : String) (chunks : List (String × ChunkInfo)) (res : List CompactionTask)
    (h : calcCompactionTasks queryJitter compactor queryHash chunks = some res)
    (t : CompactionTask) (ht : t ∈ res) :
    t.queryHash = queryHash ∧ t.compactor = compactor ∧ t.src ≠ [] ∧
    t.src = bucketSrc compactor (queryJitter queryHash) t.dstChunk (chunks.map Prod.snd) ∧
    (t.src.length : Int) = Int.tdiv compactor.DstChunkDuration compactor.SrcChunkDuration := by
  have hres := selectFull_eq_filter compactor _ res h
  rw [hres, List.mem_filter] at ht
  obtain ⟨a1, a2, a3, a4⟩ :=
    (groupChunks_inv compactor queryHash (queryJitter queryHash) (chunks.map Prod.snd)).task t ht.1
  exact ⟨a1, a2, a3, a4, by simpa [isFull] using ht.2⟩

/-- With a destination duration of 0 no task is returned, whatever
`Truncate` gives for a zero duration. -/
theorem calcCompactionTasks_zero_dst (queryJitter : String → Duration) (compactor : Compactor)
    (queryHash : String) (chunks : List (String × ChunkInfo)) (res : List CompactionTask)
    (hdst : compactor.DstChunkDuration = 0)
    (h : calcCompactionTasks queryJitter compactor queryHash chunks = some res) : res = [] := by
  apply List.eq_nil_iff_forall_not_mem.2
  intro t ht
  obtain ⟨_, _, hne, _, hfull⟩ :=
    calcCompactionTasks_task queryJitter compactor queryHash chunks res h t ht
  rw [hdst, Int.zero_tdiv] at hfull
  exact hne (List.length_eq_zero.1 (by exact_mod_cast hfull))

theorem calcCompactionTasks_nodup (queryJitter : String → Duration) (compactor : Compactor)
    (queryHash : String) (chunks : List (String × ChunkInfo)) (res : List CompactionTask)
    (h : calcCompactionTasks queryJitter compactor queryHash chunks = some res) :
    (res.map CompactionTask.dstChunk).Nodup := by
  have hres := selectFull_eq_filter compactor _ res h
  rw [hres]
  exact List.Nodup.sublist ((List.filter_sublist _).map _)
    (groupChunks_inv compactor queryHash (queryJitter queryHash) (chunks.map Prod.snd)).nodup

theorem mem_bucketSrc {compactor : Compactor} {jitter : Duration} {dst : Time}
    {chunks : List ChunkInfo} {c : ChunkInfo} :
    c ∈ bucketSrc compactor jitter dst chunks ↔
      c ∈ chunks ∧ c.duration = compactor.SrcChunkDuration ∧ c.complete ∧
        dstChunkTs compactor jitter c = dst := by
  unfold bucketSrc
  rw [List.mem_filter, decide_eq_true_eq]

theorem bucketSrc_eq_filter_candidates (compactor : Compactor) (jitter : Duration) (dst : Time)
    (chunks : List (String × ChunkInfo)) :
    bucketSrc compactor jitter dst (chunks.map Prod.snd) =
      (bucketCandidates compactor jitter dst chunks).filter (fun c => decide c.complete) := by
  unfold bucketSrc bucketCandidates
  rw [List.filter_filter]
  congr 1
  funext c
  by_cases h1 : c.duration = compactor.SrcChunkDuration <;> by_cases h2 : c.complete <;>
    by_cases h3 : dstChunkTs compactor jitter c = dst <;> simp [h1, h2, h3]

/-! ## The planner: the claims -/

/-- C1: with a positive source duration that divides the destination duration
(Go's `%`), the planner returns, and every returned task has exactly
`DstChunkDuration / SrcChunkDuration` sources:
`len(task.src) * SrcChunkDuration == DstChunkDuration`. -/
theorem C1_full_buckets (queryJitter : String → Duration) (compactor : Compactor)
    (queryHash : String) (chunks : List (String × ChunkInfo))
    (hsrc : 0 < compactor.SrcChunkDuration)
    (hdiv : Int.tmod compactor.DstChunkDuration compactor.SrcChunkDuration = 0) :
    ∃ res, calcCompactionTasks queryJitter compactor queryHash chunks = some res ∧
      ∀ t ∈ res, (t.src.length : Int) * compactor.SrcChunkDuration =
        compactor.DstChunkDuration := by
  obtain ⟨res, hres⟩ := calcCompactionTasks_total queryJitter compactor queryHash chunks
    (Int.ne_of_gt hsrc)
  refine ⟨res, hres, fun t ht => ?_⟩
  rw [(calcCompactionTasks_task queryJitter compactor queryHash chunks res hres t ht).2.2.2.2]
  exact Int.tdiv_mul_cancel_of_tmod_eq_zero hdiv

/-- Scenario S1 as an instance of C1: one task, of four sources. -/
theorem C1_full_buckets_witness :
    calcCompactionTasks (fun _ => 0) hourly "Q" chunksS1 =
      some [{ queryHash := "Q", dstChunk := 0, src := chunksS1.map Prod.snd,
              compactor := hourly }] ∧
    ∃ res, calcCompactionTasks (fun _ => 0) hourly "Q" chunksS1 = some res ∧
      ∀ t ∈ res, (t.src.length : Int) * hourly.SrcChunkDuration = hourly.DstChunkDuration :=
  ⟨by decide, C1_full_buckets (fun _ => 0) hourly "Q" chunksS1 (by decide) (by decide)⟩

/-- C2: every source of every returned task has the source duration and is
complete, `lastTs == ts + duration - step`; a bucket that holds at most
`DstChunkDuration / SrcChunkDuration` chunks of the source duration, one of
them incomplete, yields no task; in scenario S2 the planner returns no task. -/
theorem C2_sources_complete (queryJitter : String → Duration) (compactor : Compactor)
    (queryHash : String) (chunks : List (String × ChunkInfo)) :
    (∀ res, calcCompactionTasks queryJitter compactor queryHash chunks = some res →
      ∀ t ∈ res, ∀ c ∈ t.src,
        c.duration = compactor.SrcChunkDuration ∧ c.lastTs = c.ts + c.duration - c.step) ∧
    (∀ res dst, calcCompactionTasks queryJitter compactor queryHash chunks = some res →
      ((bucketCandidates compactor (queryJitter queryHash) dst chunks).length : Int) ≤
        Int.tdiv compactor.DstChunkDuration compactor.SrcChunkDuration →
      (∃ c ∈ bucketCandidates compactor (queryJitter queryHash) dst chunks,
        c.lastTs ≠ c.ts + c.duration - c.step) →
      ∀ t ∈ res, t.dstChunk ≠ dst) ∧
    calcCompactionTasks (fun _ => 0) hourly "Q" chunksS2 = some [] := by
  refine ⟨?_, ?_, by decide⟩
  · intro res hres t ht c hc
    have hsrc := (calcCompactionTasks_task queryJitter compactor queryHash chunks res hres t ht).2.2.2.1
    rw [hsrc, mem_bucketSrc] at hc
    refine ⟨hc.2.1, ?_⟩
    have := hc.2.2.1
    unfold ChunkInfo.complete Time.Add at this
    rw [this]
    exact (Int.add_sub_assoc _ _ _).symm
  · intro res dst hres hlen ⟨c, hc, hinc⟩ t ht hdst
    obtain ⟨_, _, _, hsrc, hfull⟩ :=
      calcCompactionTasks_task queryJitter compactor queryHash chunks res hres t ht
    rw [hdst, bucketSrc_eq_filter_candidates] at hsrc
    have hlt : (List.filter (fun c => decide c.complete)
        (bucketCandidates compactor (queryJitter queryHash) dst chunks)).length <
        (bucketCandidates compactor (queryJitter queryHash) dst chunks).length := by
      rw [List.length_filter_lt_length_iff_exists]
      refine ⟨c, hc, ?_⟩
      simp only [decide_eq_true_eq]
      intro hcomp
      apply hinc
      unfold ChunkInfo.complete Time.Add at hcomp
      rw [hcomp]
      exact (Int.add_sub_assoc _ _ _).symm
    rw [hsrc] at hfull
    have hcast := Int.ofNat_lt.2 hlt
    rw [hfull] at hcast
    exact absurd hlen (not_le.2 hcast)

/-- Scenario S2 as an instance of C2: the bucket 0 holds four chunks, the
fourth is incomplete, and no task is returned. -/
theorem C2_sources_complete_witness :
    calcCompactionTasks (fun _ => 0) hourly "Q" chunksS2 = some [] ∧
    ((bucketCandidates hourly 0 0 chunksS2).length : Int) ≤
      Int.tdiv hourly.DstChunkDuration hourly.SrcChunkDuration ∧
    (∃ c ∈ bucketCandidates hourly 0 0 chunksS2, c.lastTs ≠ c.ts + c.duration - c.step) ∧
    ∀ t ∈ ([] : List CompactionTask), t.dstChunk ≠ 0 :=
  ⟨by decide, by decide, by decide,
    (C2_sources_complete (fun _ => 0) hourly "Q" chunksS2).2.1 [] 0 (by decide) (by decide)
      (by decide)⟩

theorem Truncate_dvd (t : Time) (d : Duration) : d ∣ t.Truncate d := by
  refine ⟨Int.tdiv t d, ?_⟩
  unfold Time.Truncate
  have h := Int.tmod_add_tdiv t d
  exact sub_eq_of_eq_add (by rw [add_comm]; exact h.symm)

/-- C3: for every returned task and every source chunk of it, `dstChunk` is
`((chunk.ts - jitter) truncated to DstChunkDuration) + jitter`, where `jitter`
is the jitter of the query; `dstChunk - jitter` is a multiple of
`DstChunkDuration`; two returned tasks never have the same `dstChunk`; in
scenario S3 exactly one task is returned, with `dstChunk = 137`. -/
theorem C3_dst_timestamp (queryJitter : String → Duration) (compactor : Compactor)
    (queryHash : String) (chunks : List (String × ChunkInfo)) :
    (∀ res, calcCompactionTasks queryJitter compactor queryHash chunks = some res →
      (∀ t ∈ res, ∀ c ∈ t.src, t.dstChunk =
        ((c.ts.Add (-(queryJitter queryHash))).Truncate compactor.DstChunkDuration).Add
          (queryJitter queryHash)) ∧
      (∀ t ∈ res, compactor.DstChunkDuration ∣ t.dstChunk - queryJitter queryHash) ∧
      res.Pairwise (fun t u => t.dstChunk ≠ u.dstChunk)) ∧
    calcCompactionTasks (fun _ => 137) hourly "R" chunksS3 =
      some [{ queryHash := "R", dstChunk := 137, src := chunksS3.map Prod.snd,
              compactor := hourly }] := by
  refine ⟨fun res hres => ?_, by decide⟩
  have hdst : ∀ t ∈ res, ∀ c ∈ t.src, t.dstChunk =
      ((c.ts.Add (-(queryJitter queryHash))).Truncate compactor.DstChunkDuration).Add
        (queryJitter queryHash) := by
    intro t ht c hc
    have hsrc :=
      (calcCompactionTasks_task queryJitter compactor queryHash chunks res hres t ht).2.2.2.1
    rw [hsrc, mem_bucketSrc] at hc
    exact hc.2.2.2.symm
  refine ⟨hdst, ?_, ?_⟩
  · intro t ht
    have hne := (calcCompactionTasks_task queryJitter compactor queryHash chunks res hres t ht).2.2.1
    obtain ⟨c, hc⟩ := List.exists_mem_of_ne_nil _ hne
    rw [hdst t ht c hc]
    unfold Time.Add
    rw [add_sub_cancel_right]
    exact Truncate_dvd _ _
  · exact List.pairwise_map.1
      (calcCompactionTasks_nodup queryJitter compactor queryHash chunks res hres)

/-- Scenario S3 as an instance of C3. -/
theorem C3_dst_timestamp_witness :
    (∀ t ∈ [({ queryHash := "R", dstChunk := 137, src := chunksS3.map Prod.snd,
               compactor := hourly } : CompactionTask)],
      hourly.DstChunkDuration ∣ t.dstChunk - 137) :=
  ((C3_dst_timestamp (fun _ => 137) hourly "R" chunksS3).1 _ (by decide)).2.1

/-- C5, as stated, fails: the planner does not look at `step` beyond the
completeness test.  Four complete one-hour chunks, three of step 60 and one of
step 30, fill one bucket and are returned as the sources of one task. -/
theorem C5_counterexample :
    ∃ res, calcCompactionTasks (fun _ => 0) hourly "Q" chunksMixedStep = some res ∧
      ∃ t ∈ res, ∃ c ∈ t.src, ∃ d ∈ t.src, c.step ≠ d.step :=
  ⟨[{ queryHash := "Q", dstChunk := 0, src := chunksMixedStep.map Prod.snd,
      compactor := hourly }], by decide, _, List.mem_singleton.2 rfl,
    hourChunk "a" 0, by decide,
    { path := "d", ts := 10800, duration := 3600, step := 30, lastTs := 14370 }, by decide,
    by decide⟩

/-- C5, amended: when the complete chunks of the source duration in the
catalog all have one `step`, the sources of every returned task share that
`step`. -/
theorem C5_same_step (queryJitter : String → Duration) (compactor : Compactor)
    (queryHash : String) (chunks : List (String × ChunkInfo)) (step : Duration)
    (hstep : ∀ kv ∈ chunks, kv.2.duration = compactor.SrcChunkDuration →
      kv.2.lastTs = kv.2.ts + kv.2.duration - kv.2.step → kv.2.step = step) :
    ∀ res, calcCompactionTasks queryJitter compactor queryHash chunks = some res →
      ∀ t ∈ res, ∀ c ∈ t.src, ∀ d ∈ t.src, c.step = d.step := by
  intro res hres t ht
  have hsrc :=
    (calcCompactionTasks_task queryJitter compactor queryHash chunks res hres t ht).2.2.2.1
  have key : ∀ c ∈ t.src, c.step = step := by
    intro c hc
    rw [hsrc, mem_bucketSrc] at hc
    obtain ⟨kv, hkv, rfl⟩ := List.mem_map.1 hc.1
    refine hstep kv hkv hc.2.1 ?_
    have := hc.2.2.1
    unfold ChunkInfo.complete Time.Add at this
    rw [this]
    exact (Int.add_sub_assoc _ _ _).symm
  intro c hc d hd
  rw [key c hc, key d hd]

/-- Scenario S1 as an instance of the amended C5: every chunk has step 60. -/
theorem C5_same_step_witness :
    (∀ kv ∈ chunksS1, kv.2.duration = hourly.SrcChunkDuration →
      kv.2.lastTs = kv.2.ts + kv.2.duration - kv.2.step → kv.2.step = 60) ∧
    ∀ t ∈ [({ queryHash := "Q", dstChunk := 0, src := chunksS1.map Prod.snd,
              compactor := hourly } : CompactionTask)],
      ∀ c ∈ t.src, ∀ d ∈ t.src, c.step = d.step :=
  ⟨by decide,
    C5_same_step (fun _ => 0) hourly "Q" chunksS1 60 (by decide) _ (by decide)⟩

theorem source_slot (S D j ts B : Int) (len : Nat) (hS : 0 < S) (hD : (len : Int) * S = D)
    (hlen : 0 < len) (hjS : j < S) (hts : 0 ≤ ts) (hal : S ∣ ts - j)
    (hB : (ts + -j) - Int.tmod (ts + -j) D + j = B) :
    ∃ k : Nat, k < len ∧ ts = B + (k : Int) * S := by
  have hDpos : 0 < D := by
    rw [← hD]
    exact mul_pos (by exact_mod_cast hlen) hS
  have hx : 0 ≤ ts + -j := by
    obtain ⟨m, hm⟩ := hal
    have hm0 : 0 ≤ m := by
      by_contra hneg
      have h1 : m ≤ -1 := by omega
      have h2 : S * m ≤ S * (-1) := mul_le_mul_of_nonneg_left h1 (le_of_lt hS)
      omega
    have : 0 ≤ S * m := mul_nonneg (le_of_lt hS) hm0
    omega
  have hr0 : 0 ≤ Int.tmod (ts + -j) D := Int.tmod_nonneg D hx
  have hrD : Int.tmod (ts + -j) D < D := Int.tmod_lt_of_pos _ hDpos
  have hSD : S ∣ D := ⟨len, by rw [← hD, mul_comm]⟩
  have hSr : S ∣ Int.tmod (ts + -j) D := by
    have h := Int.tmod_add_tdiv (ts + -j) D
    have e : Int.tmod (ts + -j) D = (ts + -j) - D * Int.tdiv (ts + -j) D := by omega
    rw [e]
    exact dvd_sub (by rwa [← sub_eq_add_neg]) (Dvd.dvd.mul_right hSD _)
  obtain ⟨m, hm⟩ := hSr
  have hm0 : 0 ≤ m := by
    by_contra hneg
    have h1 : m ≤ -1 := by omega
    have h2 : S * m ≤ S * (-1) := mul_le_mul_of_nonneg_left h1 (le_of_lt hS)
    omega
  refine ⟨m.toNat, ?_, ?_⟩
  · have hk : ((m.toNat : Nat) : Int) = m := Int.toNat_of_nonneg hm0
    have : (m.toNat : Int) < (len : Int) := by
      rw [hk]
      by_contra hge
      have h1 : (len : Int) ≤ m := by omega
      have h2 : S * (len : Int) ≤ S * m := mul_le_mul_of_nonneg_left h1 (le_of_lt hS)
      have h3 : S * (len : Int) = D := by rw [mul_comm]; exact hD
      omega
    exact_mod_cast this
  · rw [Int.toNat_of_nonneg hm0, mul_comm, ← hm]
    omega

theorem mem_of_nodup_lt (keys : List Nat) (n : Nat) (hnd : keys.Nodup)
    (hlt : ∀ k ∈ keys, k < n) (hlen : keys.length = n) : ∀ k, k < n → k ∈ keys := by
  intro k hk
  have hsub : keys.toFinset ⊆ Finset.range n := by
    intro x hx
    rw [List.mem_toFinset] at hx
    exact Finset.mem_range.2 (hlt x hx)
  have hcard : (Finset.range n).card ≤ keys.toFinset.card := by
    rw [List.toFinset_card_of_nodup hnd, Finset.card_range, hlen]
  have := Finset.eq_of_subset_of_card_le hsub hcard
  have hk2 : k ∈ keys.toFinset := by rw [this]; exact Finset.mem_range.2 hk
  exact List.mem_toFinset.1 hk2

theorem slotOf_eq (compactor : Compactor) (dst : Time) (c : ChunkInfo) (k : Nat)
    (hS : 0 < compactor.SrcChunkDuration)
    (h : c.ts = dst + (k : Int) * compactor.SrcChunkDuration) : slotOf compactor dst c = k := by
  unfold slotOf
  rw [h, add_sub_cancel_left, Int.mul_ediv_cancel _ (Int.ne_of_gt hS)]
  exact Int.toNat_ofNat k

theorem bucketSrc_sublist (compactor : Compactor) (jitter : Duration) (dst : Time)
    (chunks : List ChunkInfo) :
    List.Sublist (bucketSrc compactor jitter dst chunks)
      (chunks.filter (fun c => decide (c.duration = compactor.SrcChunkDuration))) := by
  have e : bucketSrc compactor jitter dst chunks =
      (chunks.filter (fun c => decide (c.duration = compactor.SrcChunkDuration))).filter
        (fun c => decide (c.complete ∧ dstChunkTs compactor jitter c = dst)) := by
    unfold bucketSrc
    rw [List.filter_filter]
    congr 1
    funext c
    by_cases h1 : c.duration = compactor.SrcChunkDuration <;> by_cases h2 : c.complete <;>
      by_cases h3 : dstChunkTs compactor jitter c = dst <;> simp [h1, h2, h3]
  rw [e]
  exact List.filter_sublist _

/-- The sources of a returned task sit at slots `0 .. N-1` of the destination
window, `N` the number of sources, each slot taken once. -/
theorem calcCompactionTasks_slots (queryJitter : String → Duration) (compactor : Compactor)
    (queryHash : String) (chunks : List (String × ChunkInfo)) (res : List CompactionTask)
    (hsrc : 0 < compactor.SrcChunkDuration)
    (hdiv : Int.tmod compactor.DstChunkDuration compactor.SrcChunkDuration = 0)
    (hjit : queryJitter queryHash < compactor.SrcChunkDuration)
    (hts : ∀ kv ∈ chunks, 0 ≤ kv.2.ts)
    (hdistinct : ((chunks.map Prod.snd).filter
      (fun c => decide (c.duration = compactor.SrcChunkDuration))).Pairwise
        (fun a b => a.ts ≠ b.ts))
    (halign : ∀ kv ∈ chunks, kv.2.duration = compactor.SrcChunkDuration →
      Int.tmod (kv.2.ts - queryJitter queryHash) compactor.SrcChunkDuration = 0)
    (h : calcCompactionTasks queryJitter compactor queryHash chunks = some res)
    (t : CompactionTask) (ht : t ∈ res) :
    (t.src.length : Int) * compactor.SrcChunkDuration = compactor.DstChunkDuration ∧
    t.src.Pairwise (fun a b => a.ts ≠ b.ts) ∧
    (∀ c ∈ t.src, ∃ k : Nat, k < t.src.length ∧
      c.ts = t.dstChunk + (k : Int) * compactor.SrcChunkDuration) ∧
    (∀ k : Nat, k < t.src.length →
      ∃ c ∈ t.src, c.ts = t.dstChunk + (k : Int) * compactor.SrcChunkDuration) := by
  obtain ⟨_, _, hne, hbucket, hfull⟩ :=
    calcCompactionTasks_task queryJitter compactor queryHash chunks res h t ht
  have hlenS : (t.src.length : Int) * compactor.SrcChunkDuration =
      compactor.DstChunkDuration := by
    rw [hfull]
    exact Int.tdiv_mul_cancel_of_tmod_eq_zero hdiv
  have hlenpos : 0 < t.src.length := List.length_pos.2 hne
  have hslot : ∀ c ∈ t.src, ∃ k : Nat, k < t.src.length ∧
      c.ts = t.dstChunk + (k : Int) * compactor.SrcChunkDuration := by
    intro c hc
    have hc2 := hc
    rw [hbucket, mem_bucketSrc] at hc2
    obtain ⟨kv, hkv, hkvc⟩ := List.mem_map.1 hc2.1
    have hal := Int.dvd_of_tmod_eq_zero (halign kv hkv (by rw [hkvc]; exact hc2.2.1))
    rw [hkvc] at hal
    have hnn := hts kv hkv
    rw [hkvc] at hnn
    exact source_slot compactor.SrcChunkDuration compactor.DstChunkDuration
      (queryJitter queryHash) c.ts t.dstChunk t.src.length hsrc hlenS hlenpos hjit hnn hal
      hc2.2.2.2
  have hpw : t.src.Pairwise (fun a b => a.ts ≠ b.ts) := by
    rw [hbucket]
    exact List.Pairwise.sublist (bucketSrc_sublist _ _ _ _) hdistinct
  refine ⟨hlenS, hpw, hslot, ?_⟩
  have hkey : ∀ c ∈ t.src, slotOf compactor t.dstChunk c < t.src.length ∧
      c.ts = t.dstChunk + (slotOf compactor t.dstChunk c : Int) * compactor.SrcChunkDuration := by
    intro c hc
    obtain ⟨k, hk, hck⟩ := hslot c hc
    rw [slotOf_eq compactor t.dstChunk c k hsrc hck]
    exact ⟨hk, hck⟩
  have hnd : (t.src.map (slotOf compactor t.dstChunk)).Nodup := by
    unfold List.Nodup
    rw [List.pairwise_map]
    refine List.Pairwise.imp_of_mem ?_ hpw
    intro a b ha hb hab heq
    apply hab
    rw [(hkey a ha).2, (hkey b hb).2, heq]
  intro k hk
  have hmem := mem_of_nodup_lt (t.src.map (slotOf compactor t.dstChunk)) t.src.length hnd
    (by
      intro x hx
      obtain ⟨c, hc, rfl⟩ := List.mem_map.1 hx
      exact (hkey c hc).1)
    (List.length_map _ _) k hk
  obtain ⟨c, hc, hck⟩ := List.mem_map.1 hmem
  exact ⟨c, hc, by rw [← hck]; exact (hkey c hc).2⟩

/-- C4, as stated, fails: the assumptions of the claim leave the jitter free.
On the catalog of scenario S1 with a jitter of 3600, the source duration, the
timestamps are non-negative, distinct and aligned, yet `0 - 3600` truncates
toward zero to 0, so the four chunks from 0 to 10800 are returned as the
sources of one task with `dstChunk = 3600`: the second 0 lies in a source
window and not in the destination window `[3600, 18000)`. -/
theorem C4_counterexample :
    (0 : Int) < hourly.SrcChunkDuration ∧
    Int.tmod hourly.DstChunkDuration hourly.SrcChunkDuration = 0 ∧
    (∀ kv ∈ chunksS1, 0 ≤ kv.2.ts) ∧
    ((chunksS1.map Prod.snd).filter
      (fun c => decide (c.duration = hourly.SrcChunkDuration))).Pairwise
        (fun a b => a.ts ≠ b.ts) ∧
    (∀ kv ∈ chunksS1, kv.2.duration = hourly.SrcChunkDuration →
      Int.tmod (kv.2.ts - 3600) hourly.SrcChunkDuration = 0) ∧
    calcCompactionTasks (fun _ => 3600) hourly "Q" chunksS1 =
      some [{ queryHash := "Q", dstChunk := 3600, src := chunksS1.map Prod.snd,
              compactor := hourly }] ∧
    ¬ (∀ x : Time,
        (∃ c ∈ chunksS1.map Prod.snd, c.ts ≤ x ∧ x < c.ts + hourly.SrcChunkDuration) ↔
          ((3600 : Time) ≤ x ∧ x < 3600 + hourly.DstChunkDuration)) := by
  refine ⟨by decide, by decide, by decide, by decide, by decide, by decide, fun h => ?_⟩
  have h0 := (h 0).1 ⟨hourChunk "a" 0, by decide, by decide, by decide⟩
  exact absurd h0.1 (by decide)

/-- C4, amended: assume a positive source duration dividing the destination
duration, a jitter below the source duration, non-negative chunk timestamps,
catalog chunks of the source duration with pairwise distinct `ts`, each
aligned, `(ts - jitter) % SrcChunkDuration == 0`.  Then
the planner returns, and for every returned task the source windows
`[ts, ts + SrcChunkDuration)` are pairwise disjoint, their union is the
destination window `[dstChunk, dstChunk + DstChunkDuration)`, and the sources
are the chunks at `dstChunk + k * SrcChunkDuration` for
`k = 0 .. DstChunkDuration / SrcChunkDuration - 1`. -/
theorem C4_sources_tile_window (queryJitter : String → Duration) (compactor : Compactor)
    (queryHash : String) (chunks : List (String × ChunkInfo))
    (hsrc : 0 < compactor.SrcChunkDuration)
    (hdiv : Int.tmod compactor.DstChunkDuration compactor.SrcChunkDuration = 0)
    (hjit : queryJitter queryHash < compactor.SrcChunkDuration)
    (hts : ∀ kv ∈ chunks, 0 ≤ kv.2.ts)
    (hdistinct : ((chunks.map Prod.snd).filter
      (fun c => decide (c.duration = compactor.SrcChunkDuration))).Pairwise
        (fun a b => a.ts ≠ b.ts))
    (halign : ∀ kv ∈ chunks, kv.2.duration = compactor.SrcChunkDuration →
      Int.tmod (kv.2.ts - queryJitter queryHash) compactor.SrcChunkDuration = 0) :
    ∃ res, calcCompactionTasks queryJitter compactor queryHash chunks = some res ∧
      ∀ t ∈ res,
        t.src.Pairwise (fun a b =>
          a.ts + compactor.SrcChunkDuration ≤ b.ts ∨ b.ts + compactor.SrcChunkDuration ≤ a.ts) ∧
        (∀ x : Time, (∃ c ∈ t.src, c.ts ≤ x ∧ x < c.ts + compactor.SrcChunkDuration) ↔
          (t.dstChunk ≤ x ∧ x < t.dstChunk + compactor.DstChunkDuration)) ∧
        (∀ c ∈ t.src, ∃ k : Nat,
          (k : Int) < Int.tdiv compactor.DstChunkDuration compactor.SrcChunkDuration ∧
          c.ts = t.dstChunk + (k : Int) * compactor.SrcChunkDuration) ∧
        (∀ k : Nat,
          (k : Int) < Int.tdiv compactor.DstChunkDuration compactor.SrcChunkDuration →
          ∃ c ∈ t.src, c.ts = t.dstChunk + (k : Int) * compactor.SrcChunkDuration) := by
  obtain ⟨res, hres⟩ := calcCompactionTasks_total queryJitter compactor queryHash chunks
    (Int.ne_of_gt hsrc)
  refine ⟨res, hres, fun t ht => ?_⟩
  obtain ⟨hlenS, hpw, hslot, hall⟩ := calcCompactionTasks_slots queryJitter compactor queryHash
    chunks res hsrc hdiv hjit hts hdistinct halign hres t ht
  have hfull := (calcCompactionTasks_task queryJitter compactor queryHash chunks res hres
    t ht).2.2.2.2
  obtain ⟨S, hS⟩ : ∃ S : Int, S = compactor.SrcChunkDuration := ⟨_, rfl⟩
  obtain ⟨D, hD⟩ : ∃ D : Int, D = compactor.DstChunkDuration := ⟨_, rfl⟩
  obtain ⟨B, hB⟩ : ∃ B : Int, B = t.dstChunk := ⟨_, rfl⟩
  rw [← hS, ← hD] at hlenS hfull
  rw [← hS] at hsrc hslot hall
  rw [← hB] at hslot hall
  rw [← hS, ← hD, ← hB, ← hfull]
  have step_le : ∀ a b : Nat, a < b → ((a : Int) + 1) * S ≤ (b : Int) * S := by
    intro a b hab
    exact mul_le_mul_of_nonneg_right (by exact_mod_cast hab) (le_of_lt hsrc)
  refine ⟨?_, ?_, ?_, ?_⟩
  · refine List.Pairwise.imp_of_mem ?_ hpw
    intro a b ha hb hab
    obtain ⟨ka, _, hka⟩ := hslot a ha
    obtain ⟨kb, _, hkb⟩ := hslot b hb
    rcases Nat.lt_trichotomy ka kb with hlt | heq | hgt
    · left
      have := step_le ka kb hlt
      rw [hka, hkb]
      linarith
    · exact absurd (by rw [hka, hkb, heq]) hab
    · right
      have := step_le kb ka hgt
      rw [hka, hkb]
      linarith
  · intro x
    constructor
    · rintro ⟨c, hc, h1, h2⟩
      obtain ⟨k, hk, hck⟩ := hslot c hc
      have h3 := step_le k t.src.length hk
      have h4 : 0 ≤ (k : Int) * S := mul_nonneg (Int.ofNat_nonneg k) (le_of_lt hsrc)
      rw [hck] at h1 h2
      constructor
      · linarith
      · linarith
    · rintro ⟨h1, h2⟩
      have hy0 : 0 ≤ x - B := by linarith
      have hq0 : 0 ≤ (x - B) / S := Int.ediv_nonneg hy0 (le_of_lt hsrc)
      have hqle : (x - B) / S * S ≤ x - B := Int.ediv_mul_le _ (Int.ne_of_gt hsrc)
      have hqlt : x - B < ((x - B) / S + 1) * S := Int.lt_ediv_add_one_mul_self _ hsrc
      have hqN : ((x - B) / S).toNat < t.src.length := by
        by_contra hge
        have h5 : (t.src.length : Int) ≤ (((x - B) / S).toNat : Int) := by
          exact_mod_cast not_lt.1 hge
        rw [Int.toNat_of_nonneg hq0] at h5
        have h6 : (t.src.length : Int) * S ≤ (x - B) / S * S :=
          mul_le_mul_of_nonneg_right h5 (le_of_lt hsrc)
        linarith
      obtain ⟨c, hc, hck⟩ := hall _ hqN
      rw [Int.toNat_of_nonneg hq0] at hck
      refine ⟨c, hc, ?_, ?_⟩
      · rw [hck]; linarith
      · rw [hck]; linarith
  · intro c hc
    obtain ⟨k, hk, hck⟩ := hslot c hc
    exact ⟨k, by exact_mod_cast hk, hck⟩
  · intro k hk
    exact hall k (by exact_mod_cast hk)

/-- Scenario S3 as an instance of the amended C4: jitter 137, four chunks from
137, returned as the sources of one task with `dstChunk = 137`. -/
theorem C4_sources_tile_window_witness :
    calcCompactionTasks (fun _ => 137) hourly "R" chunksS3 =
      some [{ queryHash := "R", dstChunk := 137, src := chunksS3.map Prod.snd,
              compactor := hourly }] ∧
    (0 : Int) < hourly.SrcChunkDuration ∧
    Int.tmod hourly.DstChunkDuration hourly.SrcChunkDuration = 0 ∧
    (137 : Int) < hourly.SrcChunkDuration ∧
    (∀ kv ∈ chunksS3, 0 ≤ kv.2.ts) ∧
    (∀ kv ∈ chunksS3, kv.2.duration = hourly.SrcChunkDuration →
      Int.tmod (kv.2.ts - 137) hourly.SrcChunkDuration = 0) ∧
    ∃ res, calcCompactionTasks (fun _ => 137) hourly "R" chunksS3 = some res ∧
      ∀ t ∈ res,
        t.src.Pairwise (fun a b =>
          a.ts + hourly.SrcChunkDuration ≤ b.ts ∨ b.ts + hourly.SrcChunkDuration ≤ a.ts) ∧
        (∀ x : Time, (∃ c ∈ t.src, c.ts ≤ x ∧ x < c.ts + hourly.SrcChunkDuration) ↔
          (t.dstChunk ≤ x ∧ x < t.dstChunk + hourly.DstChunkDuration)) ∧
        (∀ c ∈ t.src, ∃ k : Nat,
          (k : Int) < Int.tdiv hourly.DstChunkDuration hourly.SrcChunkDuration ∧
          c.ts = t.dstChunk + (k : Int) * hourly.SrcChunkDuration) ∧
        (∀ k : Nat,
          (k : Int) < Int.tdiv hourly.DstChunkDuration hourly.SrcChunkDuration →
          ∃ c ∈ t.src, c.ts = t.dstChunk + (k : Int) * hourly.SrcChunkDuration) :=
  ⟨by decide, by decide, by decide, by decide, by decide, by decide,
    C4_sources_tile_window (fun _ => 137) hourly "R" chunksS3 (by decide) (by decide)
      (by decide) (by decide) (by decide) (by decide)⟩

/-! ## The planning loop -/

theorem groupChunks_keys (compactor : Compactor) (queryHash : String) (jitter : Duration)
    (chunks : List ChunkInfo) (dst : Time) :
    dst ∈ (groupChunks compactor queryHash jitter chunks).map CompactionTask.dstChunk ↔
      ∃ c ∈ chunks, c.duration = compactor.SrcChunkDuration ∧ c.complete ∧
        dstChunkTs compactor jitter c = dst := by
  have inv := groupChunks_inv compactor queryHash jitter chunks
  constructor
  · intro h
    obtain ⟨t, ht, rfl⟩ := List.mem_map.1 h
    obtain ⟨_, _, hne, hsrc⟩ := inv.task t ht
    obtain ⟨c, hc⟩ := List.exists_mem_of_ne_nil _ hne
    rw [hsrc, mem_bucketSrc] at hc
    exact ⟨c, hc⟩
  · rintro ⟨c, hc, h1, h2, rfl⟩
    exact inv.covered c hc h1 h2

theorem groupChunks_eq_map (compactor : Compactor) (queryHash : String) (jitter : Duration)
    (chunks : List ChunkInfo) :
    groupChunks compactor queryHash jitter chunks =
      ((groupChunks compactor queryHash jitter chunks).map CompactionTask.dstChunk).map
        (bucketTask compactor queryHash jitter chunks) := by
  have inv := groupChunks_inv compactor queryHash jitter chunks
  rw [List.map_map]
  refine (List.map_id _).symm.trans (List.map_congr_left fun t ht => ?_)
  obtain ⟨h1, h2, _, h4⟩ := inv.task t ht
  cases t
  simp only [id, Function.comp, bucketTask] at h1 h2 h4 ⊢
  subst h1 h2
  rw [← h4]

theorem bucketSrc_perm (compactor : Compactor) (jitter : Duration) (dst : Time)
    (chunks chunks1 : List ChunkInfo) (h : chunks.Perm chunks1) :
    (bucketSrc compactor jitter dst chunks).Perm (bucketSrc compactor jitter dst chunks1) :=
  List.Perm.filter _ h

theorem groupChunks_keys_perm (compactor : Compactor) (queryHash : String) (jitter : Duration)
    (chunks chunks1 : List ChunkInfo) (h : chunks.Perm chunks1) :
    ((groupChunks compactor queryHash jitter chunks).map CompactionTask.dstChunk).Perm
      ((groupChunks compactor queryHash jitter chunks1).map CompactionTask.dstChunk) := by
  rw [List.perm_ext_iff_of_nodup (groupChunks_inv compactor queryHash jitter chunks).nodup
    (groupChunks_inv compactor queryHash jitter chunks1).nodup]
  intro dst
  rw [groupChunks_keys, groupChunks_keys]
  constructor
  · rintro ⟨c, hc, h1⟩
    exact ⟨c, h.mem_iff.1 hc, h1⟩
  · rintro ⟨c, hc, h1⟩
    exact ⟨c, h.mem_iff.2 hc, h1⟩

theorem isFull_bucketTask_perm (compactor : Compactor) (queryHash : String) (jitter : Duration)
    (chunks chunks1 : List ChunkInfo) (h : chunks.Perm chunks1) :
    isFull compactor ∘ bucketTask compactor queryHash jitter chunks =
      isFull compactor ∘ bucketTask compactor queryHash jitter chunks1 := by
  funext dst
  simp only [Function.comp, isFull, bucketTask,
    (bucketSrc_perm compactor jitter dst chunks chunks1 h).length_eq]

/-- The tasks kept by the test of line 79 do not depend on the order in which
the first loop visits the chunks, up to the order of the tasks and of their
sources. -/
theorem filter_groupChunks_perm (compactor : Compactor) (queryHash : String)
    (jitter : Duration) (chunks chunks1 : List ChunkInfo) (h : chunks.Perm chunks1) :
    sameTasks ((groupChunks compactor queryHash jitter chunks).filter (isFull compactor))
      ((groupChunks compactor queryHash jitter chunks1).filter (isFull compactor)) := by
  have e : (groupChunks compactor queryHash jitter chunks).filter (isFull compactor) =
      (((groupChunks compactor queryHash jitter chunks).map CompactionTask.dstChunk).filter
        (isFull compactor ∘ bucketTask compactor queryHash jitter chunks1)).map
        (bucketTask compactor queryHash jitter chunks) := by
    rw [← isFull_bucketTask_perm compactor queryHash jitter chunks chunks1 h]
    exact (congrArg (List.filter (isFull compactor))
      (groupChunks_eq_map compactor queryHash jitter chunks)).trans (List.filter_map _ _)
  have e1 : (groupChunks compactor queryHash jitter chunks1).filter (isFull compactor) =
      (((groupChunks compactor queryHash jitter chunks1).map CompactionTask.dstChunk).filter
        (isFull compactor ∘ bucketTask compactor queryHash jitter chunks1)).map
        (bucketTask compactor queryHash jitter chunks1) :=
    (congrArg (List.filter (isFull compactor))
      (groupChunks_eq_map compactor queryHash jitter chunks1)).trans (List.filter_map _ _)
  rw [e, e1]
  refine ⟨_, List.Perm.map _ (List.Perm.filter _
    (groupChunks_keys_perm compactor queryHash jitter chunks chunks1 h)), ?_⟩
  rw [List.forall₂_map_left_iff, List.forall₂_map_right_iff, List.forall₂_same]
  intro dst _
  exact ⟨rfl, rfl, rfl, bucketSrc_perm compactor jitter dst chunks chunks1 h⟩

theorem groupChunks_nil_perm (compactor : Compactor) (queryHash : String) (jitter : Duration)
    (chunks chunks1 : List ChunkInfo) (h : chunks.Perm chunks1)
    (hnil : groupChunks compactor queryHash jitter chunks = []) :
    groupChunks compactor queryHash jitter chunks1 = [] := by
  have hk := groupChunks_keys_perm compactor queryHash jitter chunks chunks1 h
  rw [hnil, List.map_nil] at hk
  exact List.map_eq_nil_iff.1 (List.Perm.nil_eq hk).symm

theorem selectFull_eq_none (compactor : Compactor) (tasks : List CompactionTask)
    (h0 : compactor.SrcChunkDuration = 0) (hne : tasks ≠ []) :
    selectFull compactor tasks = none := by
  cases tasks with
  | nil => exact absurd rfl hne
  | cons t rest => simp [selectFull, h0]

/-- The planner does not depend on the order in which it visits the chunk map:
when it returns for one order it returns for every other, with the same
tasks. -/
theorem calcCompactionTasks_perm (queryJitter : String → Duration) (compactor : Compactor)
    (queryHash : String) (chunks chunks1 : List (String × ChunkInfo))
    (res : List CompactionTask) (h : chunks.Perm chunks1)
    (hres : calcCompactionTasks queryJitter compactor queryHash chunks = some res) :
    ∃ res1, calcCompactionTasks queryJitter compactor queryHash chunks1 = some res1 ∧
      sameTasks res res1 := by
  have hv : (chunks.map Prod.snd).Perm (chunks1.map Prod.snd) := List.Perm.map _ h
  have hfilter := selectFull_eq_filter compactor _ res hres
  unfold calcCompactionTasks at hres ⊢
  by_cases h0 : compactor.SrcChunkDuration = 0
  · by_cases hnil : groupChunks compactor queryHash (queryJitter queryHash)
        (chunks.map Prod.snd) = []
    · have hnil1 := groupChunks_nil_perm compactor queryHash (queryJitter queryHash) _ _ hv hnil
      rw [hnil] at hfilter
      rw [hnil1, hfilter]
      exact ⟨[], rfl, [], List.Perm.refl _, List.Forall₂.nil⟩
    · rw [selectFull_eq_none compactor _ h0 hnil] at hres
      exact absurd hres (by simp)
  · rw [selectFull_total compactor _ h0, hfilter]
    exact ⟨_, rfl, filter_groupChunks_perm compactor queryHash (queryJitter queryHash) _ _ hv⟩


theorem sameTasks_append {a a1 b b1 : List CompactionTask} (h : sameTasks a a1)
    (h1 : sameTasks b b1) : sameTasks (a ++ b) (a1 ++ b1) := by
  obtain ⟨l, hl, hf⟩ := h
  obtain ⟨m, hm, hg⟩ := h1
  exact ⟨l ++ m, hl.append hm, List.rel_append hf hg⟩

theorem sameTasks_of_perm {a b c : List CompactionTask} (h : a.Perm b) (h1 : sameTasks b c) :
    sameTasks a c := by
  obtain ⟨l, hl, hf⟩ := h1
  exact ⟨l, h.trans hl, hf⟩

theorem sameTasks_nil_iff {a b : List CompactionTask} (h : sameTasks a b) :
    b = [] ↔ a = [] := by
  obtain ⟨l, hl, hf⟩ := h
  have h1 := hl.length_eq
  have h2 := hf.length_eq
  constructor
  · intro hb
    rw [hb, List.length_nil] at h2
    exact List.length_eq_zero.1 (h1.trans h2)
  · intro ha
    rw [ha, List.length_nil] at h1
    exact List.length_eq_zero.1 (h2.symm.trans h1.symm)

theorem planQuery_cons (queryJitter : String → Duration) (queryHash : String)
    (qData : QueryData) (cfg : Compactor) (rest : List Compactor) (ts : List CompactionTask) :
    planQuery queryJitter queryHash qData (cfg :: rest) = some ts ↔
      ∃ a b, calcCompactionTasks queryJitter cfg queryHash qData.chunksOnDisk = some a ∧
        planQuery queryJitter queryHash qData rest = some b ∧ ts = a ++ b := by
  have e : planQuery queryJitter queryHash qData (cfg :: rest) =
      match calcCompactionTasks queryJitter cfg queryHash qData.chunksOnDisk with
      | none => none
      | some tasks =>
        match planQuery queryJitter queryHash qData rest with
        | none => none
        | some more => some (tasks ++ more) := rfl
  rw [e]
  cases calcCompactionTasks queryJitter cfg queryHash qData.chunksOnDisk with
  | none => simp
  | some a =>
    cases planQuery queryJitter queryHash qData rest with
    | none => simp
    | some b =>
      simp only [Option.some.injEq, exists_and_left, exists_eq_left']
      exact ⟨fun h => h.symm, fun h => h.symm⟩

theorem planTasks_cons (queryJitter : String → Duration) (compactors : List Compactor)
    (kv : String × QueryData) (rest : List (String × QueryData)) (ts : List CompactionTask) :
    planTasks queryJitter compactors (kv :: rest) = some ts ↔
      ∃ a b, planQuery queryJitter kv.1 kv.2 compactors = some a ∧
        planTasks queryJitter compactors rest = some b ∧ ts = a ++ b := by
  obtain ⟨q, qd⟩ := kv
  have e : planTasks queryJitter compactors ((q, qd) :: rest) =
      match planQuery queryJitter q qd compactors with
      | none => none
      | some tasks =>
        match planTasks queryJitter compactors rest with
        | none => none
        | some more => some (tasks ++ more) := rfl
  rw [e]
  cases planQuery queryJitter q qd compactors with
  | none => simp
  | some a =>
    cases planTasks queryJitter compactors rest with
    | none => simp
    | some b =>
      simp only [Option.some.injEq, exists_and_left, exists_eq_left']
      exact ⟨fun h => h.symm, fun h => h.symm⟩

theorem planQuery_perm (queryJitter : String → Duration) (queryHash : String)
    (qd qd1 : QueryData) (h : qd.chunksOnDisk.Perm qd1.chunksOnDisk)
    (compactors : List Compactor) (ts : List CompactionTask)
    (hts : planQuery queryJitter queryHash qd compactors = some ts) :
    ∃ ts1, planQuery queryJitter queryHash qd1 compactors = some ts1 ∧ sameTasks ts ts1 := by
  induction compactors generalizing ts with
  | nil =>
    simp only [planQuery, Option.some.injEq] at hts
    exact ⟨[], rfl, hts ▸ ⟨[], List.Perm.refl _, List.Forall₂.nil⟩⟩
  | cons cfg rest ih =>
    obtain ⟨a, b, ha, hb, rfl⟩ := (planQuery_cons _ _ _ _ _ _).1 hts
    obtain ⟨a1, ha1, hsa⟩ := calcCompactionTasks_perm queryJitter cfg queryHash _ _ a h ha
    obtain ⟨b1, hb1, hsb⟩ := ih b hb
    exact ⟨a1 ++ b1, (planQuery_cons _ _ _ _ _ _).2 ⟨a1, b1, ha1, hb1, rfl⟩,
      sameTasks_append hsa hsb⟩

theorem planTasks_sameQuery (queryJitter : String → Duration) (compactors : List Compactor)
    (d e : List (String × QueryData)) (h : List.Forall₂ sameQuery d e)
    (ts : List CompactionTask) (hts : planTasks queryJitter compactors d = some ts) :
    ∃ ts1, planTasks queryJitter compactors e = some ts1 ∧ sameTasks ts ts1 := by
  induction h generalizing ts with
  | nil =>
    simp only [planTasks, Option.some.injEq] at hts
    exact ⟨[], rfl, hts ▸ ⟨[], List.Perm.refl _, List.Forall₂.nil⟩⟩
  | @cons x y xs ys hab _ ih =>
    obtain ⟨a, b, ha, hb, rfl⟩ := (planTasks_cons _ _ _ _ _).1 hts
    obtain ⟨a1, ha1, hsa⟩ := planQuery_perm queryJitter x.1 x.2 y.2 hab.2 compactors a ha
    obtain ⟨b1, hb1, hsb⟩ := ih b hb
    rw [hab.1] at ha1
    exact ⟨a1 ++ b1, (planTasks_cons _ _ _ _ _).2 ⟨a1, b1, ha1, hb1, rfl⟩,
      sameTasks_append hsa hsb⟩

theorem planTasks_perm (queryJitter : String → Duration) (compactors : List Compactor)
    (d e : List (String × QueryData)) (h : d.Perm e)
    (ts : List CompactionTask) (hts : planTasks queryJitter compactors d = some ts) :
    ∃ ts1, planTasks queryJitter compactors e = some ts1 ∧ ts.Perm ts1 := by
  induction h generalizing ts with
  | nil => exact ⟨ts, hts, List.Perm.refl _⟩
  | cons x _ ih =>
    obtain ⟨a, b, ha, hb, rfl⟩ := (planTasks_cons _ _ _ _ _).1 hts
    obtain ⟨b1, hb1, hp⟩ := ih b hb
    exact ⟨a ++ b1, (planTasks_cons _ _ _ _ _).2 ⟨a, b1, ha, hb1, rfl⟩, hp.append_left a⟩
  | swap x y l =>
    obtain ⟨a, b, ha, hb, rfl⟩ := (planTasks_cons _ _ _ _ _).1 hts
    obtain ⟨a1, b1, ha1, hb1, rfl⟩ := (planTasks_cons _ _ _ _ _).1 hb
    refine ⟨a1 ++ (a ++ b1), (planTasks_cons _ _ _ _ _).2
      ⟨a1, a ++ b1, ha1, (planTasks_cons _ _ _ _ _).2 ⟨a, b1, ha, hb1, rfl⟩, rfl⟩, ?_⟩
    rw [← List.append_assoc, ← List.append_assoc]
    exact List.Perm.append_right _ List.perm_append_comm
  | trans _ _ ih1 ih2 =>
    obtain ⟨ts1, h1, p1⟩ := ih1 ts hts
    obtain ⟨ts2, h2, p2⟩ := ih2 ts1 h1
    exact ⟨ts2, h2, p1.trans p2⟩

/-- The tasks of the planning loop do not depend on the order in which the
catalog and its chunk maps are visited. -/
theorem planTasks_sameCatalog (queryJitter : String → Duration) (compactors : List Compactor)
    (d e : List (String × QueryData)) (h : sameCatalog d e)
    (ts : List CompactionTask) (hts : planTasks queryJitter compactors d = some ts) :
    ∃ ts1, planTasks queryJitter compactors e = some ts1 ∧ sameTasks ts ts1 := by
  obtain ⟨l, hl, hf⟩ := h
  obtain ⟨tl, htl, hp⟩ := planTasks_perm queryJitter compactors d l hl ts hts
  obtain ⟨ts1, hts1, hs⟩ := planTasks_sameQuery queryJitter compactors l e hf tl htl
  exact ⟨ts1, hts1, sameTasks_of_perm hp hs⟩

/-- C6, as stated, fails: planning reads the catalog and leaves it as it is,
so a second run on the unchanged catalog of scenario S1 returns the task of
the first run again and not zero tasks. -/
theorem C6_counterexample :
    (compactionIteration jitterZero DefaultCompactionConfig cacheS1).map (fun r => r.2.data) =
      some cacheS1.data ∧
    ((compactionIteration jitterZero DefaultCompactionConfig cacheS1).bind
      (fun r => compactionIteration jitterZero DefaultCompactionConfig r.2)).map Prod.fst =
      some [taskS1] := by
  decide

/-- C6, amended: an iteration of the planning loop leaves the catalog as it
is, and a second iteration on the unchanged catalog, in whatever order it
visits the maps, returns the tasks of the first one again, each as often, up
to the order of the tasks and of the sources of each task; it returns zero
tasks only when the first did. -/
theorem C6_replan_same_tasks (queryJitter : String → Duration) (cfg : CompactionConfig)
    (c c1 : Cache) (tasks : List CompactionTask)
    (h : compactionIteration queryJitter cfg c = some (tasks, c1)) :
    c1.data = c.data ∧
    ∀ c2 : Cache, sameCatalog c1.data c2.data →
      ∃ tasks2 c3, compactionIteration queryJitter cfg c2 = some (tasks2, c3) ∧
        c3.data = c2.data ∧ sameTasks tasks tasks2 ∧ (tasks2 = [] ↔ tasks = []) := by
  unfold compactionIteration at h
  cases hp : planTasks queryJitter cfg.Compactors c.data with
  | none => rw [hp] at h; exact absurd h (by simp)
  | some ts =>
    rw [hp] at h
    simp only [Option.some.injEq, Prod.mk.injEq] at h
    obtain ⟨h1, h2⟩ := h
    subst h1
    have hd : c1.data = c.data := by rw [← h2]
    refine ⟨hd, fun c2 hsame => ?_⟩
    rw [hd] at hsame
    obtain ⟨ts2, hts2, hs⟩ :=
      planTasks_sameCatalog queryJitter cfg.Compactors c.data c2.data hsame ts hp
    unfold compactionIteration
    rw [hts2]
    exact ⟨ts2, _, rfl, rfl, hs, sameTasks_nil_iff hs⟩

/-- Scenario S1 as an instance of the amended C6: the first iteration returns
the task with `dstChunk = 0`; a second iteration that visits the chunks of Q
from the last to the first returns that task with its sources in the other
order. -/
theorem C6_replan_same_tasks_witness :
    compactionIteration jitterZero DefaultCompactionConfig cacheS1Reversed =
      some ([{ taskS1 with src := taskS1.src.reverse }],
        { cacheS1Reversed with pendingCompactions := 0 }) ∧
    ∃ tasks2 c3, compactionIteration jitterZero DefaultCompactionConfig cacheS1Reversed =
        some (tasks2, c3) ∧
      c3.data = cacheS1Reversed.data ∧ sameTasks [taskS1] tasks2 ∧
      (tasks2 = [] ↔ [taskS1] = []) :=
  ⟨rfl, (C6_replan_same_tasks jitterZero DefaultCompactionConfig cacheS1
    { cacheS1 with pendingCompactions := 0 } [taskS1] rfl).2 cacheS1Reversed
    ⟨_, List.Perm.refl _,
      List.Forall₂.cons ⟨rfl, (List.reverse_perm chunksS1).symm⟩ List.Forall₂.nil⟩⟩

/-! ## The worker step `compact` -/

/-- C7: whenever `compact` returns an error (no sources, a source that does
not open or read, a `WriteMetric` failure, a `saveChunk` failure) the catalog
is what it was before the call, no file has been removed and the counter of
compacted chunks has not moved. -/
theorem C7_failure_atomic (env : Env) (c : Cache) (t : CompactionTask) (e : String)
    (h : (compact env c t).1 = .error e) :
    (compact env c t).2.data = c.data ∧ (compact env c t).2.disk = c.disk ∧
    (compact env c t).2.compactedChunks = c.compactedChunks := by
  unfold compact at h ⊢
  split
  · exact ⟨rfl, rfl, rfl⟩
  · rename_i first rest hsort
    rw [hsort] at h
    simp only at h ⊢
    split
    · exact ⟨rfl, rfl, rfl⟩
    · rename_i metrics hread
      rw [hread] at h
      simp only at h ⊢
      split
      · exact ⟨rfl, rfl, rfl⟩
      · rename_i hwrite
        rw [hwrite] at h
        simp only at h ⊢
        split
        · exact ⟨rfl, rfl, rfl⟩
        · rename_i c1 hsave
          rw [hsave] at h
          exact absurd h (by simp)

/-- Instances of C7 on scenario S1: a failing `saveChunk`, a source that does
not read, and a task without sources each make `compact` fail. -/
theorem C7_failure_atomic_witness :
    (compact envSaveFails cacheS1 taskS1).1 = .error "failed to save chunk" ∧
    (compact envReadFails cacheS1 taskS1).1 =
      .error "failed to read metrics from src chunk for compaction" ∧
    (compact envOk cacheS1 { taskS1 with src := [] }).1 = .error "no src chunks" ∧
    (compact envSaveFails cacheS1 taskS1).2.data = cacheS1.data ∧
    (compact envSaveFails cacheS1 taskS1).2.disk = cacheS1.disk ∧
    (compact envSaveFails cacheS1 taskS1).2.compactedChunks = cacheS1.compactedChunks :=
  ⟨rfl, rfl, rfl, C7_failure_atomic envSaveFails cacheS1 taskS1 "failed to save chunk" rfl⟩

theorem mem_insertByTs (c x : ChunkInfo) (l : List ChunkInfo) :
    x ∈ insertByTs c l ↔ x = c ∨ x ∈ l := by
  induction l with
  | nil => simp [insertByTs]
  | cons d rest ih =>
    unfold insertByTs
    split
    · simp
    · simp only [List.mem_cons, ih]
      tauto

theorem mem_sortByTs (x : ChunkInfo) (l : List ChunkInfo) : x ∈ sortByTs l ↔ x ∈ l := by
  induction l with
  | nil => simp [sortByTs]
  | cons c rest ih => simp [sortByTs, mem_insertByTs, ih]

theorem readSources_ok (env : Env) (dst : Chunk) (l : List ChunkInfo) (acc : Metrics)
    (hopen : ∀ s ∈ l, env.openChunk s = true)
    (hread : ∀ s ∈ l, ∀ a b st, env.readMetrics s a b st ≠ none) :
    ∃ ms, readSources env dst l acc = .ok ms := by
  induction l generalizing acc with
  | nil => exact ⟨acc, rfl⟩
  | cons i rest ih =>
    unfold readSources
    rw [if_neg (by simp [hopen i (List.mem_cons_self _ _)])]
    cases hr : env.readMetrics i dst.from_ dst.to_ dst.step with
    | none => exact absurd hr (hread i (List.mem_cons_self _ _) _ _ _)
    | some ms =>
      exact ih _ (fun s hs => hopen s (List.mem_cons_of_mem _ hs))
        (fun s hs => hread s (List.mem_cons_of_mem _ hs))

theorem writeMetrics_ok (env : Env) (ms : Metrics) (hwrite : ∀ m, env.writeMetric m = true) :
    writeMetrics env ms = .ok () := by
  induction ms with
  | nil => rfl
  | cons m rest ih =>
    unfold writeMetrics
    rw [if_neg (by simp [hwrite m])]
    exact ih

theorem removeSources_compactedChunks (env : Env) (queryHash : String) (l : List ChunkInfo)
    (c : Cache) : (removeSources env queryHash l c).compactedChunks = c.compactedChunks := by
  induction l generalizing c with
  | nil => rfl
  | cons s rest ih =>
    unfold removeSources
    rw [ih]

/-- C8, as stated, fails: `compact` never compares the steps of its sources.
On the task whose fourth source has step 30 and the others step 60, with every
file operation succeeding, it returns `nil` and publishes the destination
chunk, of step 60. -/
theorem C8_counterexample :
    (∃ a ∈ taskMixedStep.src, ∃ b ∈ taskMixedStep.src, a.step ≠ b.step) ∧
    (compact envOk cacheMixedStep taskMixedStep).1 = .ok () ∧
    (compact envOk cacheMixedStep taskMixedStep).2.data =
      [("Q", { chunksOnDisk := [("Q/dst", hourChunk4 "Q/dst" 0)] })] :=
  ⟨by decide, rfl, by decide⟩

/-- C8, amended: for every task with at least one source, whatever the steps
of the sources, `compact` returns `nil` and counts one compacted chunk for the
compactor as soon as every source opens and reads, every series is written and
`saveChunk` succeeds. -/
theorem C8_success_whatever_steps (env : Env) (c : Cache) (t : CompactionTask)
    (hne : t.src ≠ [])
    (hopen : ∀ s ∈ t.src, env.openChunk s = true)
    (hread : ∀ s ∈ t.src, ∀ a b st, env.readMetrics s a b st ≠ none)
    (hwrite : ∀ m, env.writeMetric m = true)
    (hsave : ∀ chunk, env.persist t.queryHash chunk ≠ none) :
    (compact env c t).1 = .ok () ∧
    (compact env c t).2.compactedChunks t.compactor.SrcChunkDuration
        t.compactor.DstChunkDuration =
      c.compactedChunks t.compactor.SrcChunkDuration t.compactor.DstChunkDuration + 1 := by
  unfold compact
  cases hsort : sortByTs t.src with
  | nil =>
    obtain ⟨x, hx⟩ := List.exists_mem_of_ne_nil _ hne
    have := (mem_sortByTs x t.src).2 hx
    rw [hsort] at this
    exact absurd this (List.not_mem_nil _)
  | cons first rest =>
    have hmem : ∀ s ∈ first :: rest, s ∈ t.src := by
      intro s hs
      rw [← hsort] at hs
      exact (mem_sortByTs s t.src).1 hs
    obtain ⟨ms, hms⟩ := readSources_ok env (dstOf t first) (first :: rest) []
      (fun s hs => hopen s (hmem s hs)) (fun s hs => hread s (hmem s hs))
    simp only [hms, writeMetrics_ok env ms hwrite]
    unfold saveChunk
    cases hp : env.persist t.queryHash (dstOf t first) with
    | none => exact absurd hp (hsave _)
    | some path =>
      simp only [true_and]
      split
      · simp [incCompacted]
      · simp [incCompacted, removeSources_compactedChunks]

/-- Scenario S1 as an instance of the amended C8. -/
theorem C8_success_whatever_steps_witness :
    (compact envOk cacheS1 taskS1).1 = .ok () ∧
    (compact envOk cacheS1 taskS1).2.compactedChunks taskS1.compactor.SrcChunkDuration
        taskS1.compactor.DstChunkDuration =
      cacheS1.compactedChunks taskS1.compactor.SrcChunkDuration
        taskS1.compactor.DstChunkDuration + 1 :=
  C8_success_whatever_steps envOk cacheS1 taskS1 (by decide) (fun _ _ => rfl)
    (fun _ _ _ _ _ => by simp [envOk]) (fun _ => rfl) (fun _ => by simp [envOk])

theorem lookupQuery_updateQuery (q q' : String) (f : QueryData → QueryData)
    (data : List (String × QueryData)) :
    lookupQuery q (updateQuery q' f data) =
      if q = q' then (lookupQuery q data).map f else lookupQuery q data := by
  induction data with
  | nil => simp [lookupQuery, updateQuery]
  | cons kv rest ih =>
    obtain ⟨k, qd⟩ := kv
    unfold updateQuery
    by_cases hk : k = q'
    · rw [if_pos hk]
      unfold lookupQuery
      by_cases hq : k = q
      · rw [if_pos hq, if_pos hq, if_pos (hq ▸ hk)]
        rfl
      · rw [if_neg hq, if_neg hq]
        exact ih
    · rw [if_neg hk]
      unfold lookupQuery
      by_cases hq : k = q
      · rw [if_pos hq, if_pos hq, if_neg (hq ▸ hk)]
      · rw [if_neg hq, if_neg hq]
        exact ih

theorem mem_put_keys (info : ChunkInfo) (qd : QueryData) (p : String) :
    p ∈ (qd.put info).chunksOnDisk.map Prod.fst ↔
      p = info.path ∨ p ∈ qd.chunksOnDisk.map Prod.fst := by
  unfold QueryData.put
  simp only [List.map_cons, List.mem_cons, List.mem_map, List.mem_filter, decide_eq_true_eq]
  constructor
  · rintro (h | ⟨kv, ⟨hkv, _⟩, rfl⟩)
    · exact Or.inl h
    · exact Or.inr ⟨kv, hkv, rfl⟩
  · rintro (h | ⟨kv, hkv, rfl⟩)
    · exact Or.inl h
    · by_cases hp : kv.1 = info.path
      · exact Or.inl hp
      · exact Or.inr ⟨kv, ⟨hkv, hp⟩, rfl⟩

theorem mem_delete_keys (path : String) (qd : QueryData) (p : String) :
    p ∈ (qd.delete path).chunksOnDisk.map Prod.fst ↔
      p ∈ qd.chunksOnDisk.map Prod.fst ∧ p ≠ path := by
  unfold QueryData.delete
  simp only [List.mem_map, List.mem_filter, decide_eq_true_eq]
  constructor
  · rintro ⟨kv, ⟨hkv, hne⟩, rfl⟩
    exact ⟨⟨kv, hkv, rfl⟩, hne⟩
  · rintro ⟨⟨kv, hkv, rfl⟩, hne⟩
    exact ⟨kv, ⟨hkv, hne⟩, rfl⟩

theorem removeSources_queryData (env : Env) (queryHash : String) (l : List ChunkInfo)
    (c : Cache) (q : String) :
    ((removeSources env queryHash l c).queryData q = none ↔ c.queryData q = none) ∧
    ∀ p, p ∈ (removeSources env queryHash l c).paths q ↔
      p ∈ c.paths q ∧ ¬ (q = queryHash ∧ ∃ s ∈ l, s.path = p) := by
  induction l generalizing c with
  | nil => simp [removeSources]
  | cons s rest ih =>
    unfold removeSources
    obtain ⟨ih1, ih2⟩ := ih
      { c with
        disk := if env.remove s.path then c.disk.filter (fun p => decide (p ≠ s.path))
                else c.disk
        data := updateQuery queryHash (QueryData.delete s.path) c.data }
    have hstep : ∀ x : Cache, x.data = updateQuery queryHash (QueryData.delete s.path) c.data →
        (x.queryData q = none ↔ c.queryData q = none) ∧
        ∀ p, p ∈ x.paths q ↔ p ∈ c.paths q ∧ ¬ (q = queryHash ∧ s.path = p) := by
      intro x hx
      unfold Cache.paths Cache.queryData
      rw [hx, lookupQuery_updateQuery]
      by_cases hq : q = queryHash
      · rw [if_pos hq]
        cases hl : lookupQuery q c.data with
        | none => simp
        | some qd =>
          simp only [Option.map_some', mem_delete_keys, hq, true_and]
          refine ⟨by simp, fun p => ?_⟩
          constructor
          · rintro ⟨h1, h2⟩
            exact ⟨h1, fun e => h2 e.symm⟩
          · rintro ⟨h1, h2⟩
            exact ⟨h1, fun e => h2 e.symm⟩
      · rw [if_neg hq]
        simp [hq]
    obtain ⟨hs1, hs2⟩ := hstep
      { c with
        disk := if env.remove s.path then c.disk.filter (fun p => decide (p ≠ s.path))
                else c.disk
        data := updateQuery queryHash (QueryData.delete s.path) c.data } rfl
    refine ⟨ih1.trans hs1, fun p => ?_⟩
    rw [ih2, hs2]
    simp only [List.mem_cons, exists_eq_or_imp]
    constructor
    · rintro ⟨⟨h1, h2⟩, h3⟩
      exact ⟨h1, fun ⟨e, h⟩ => h.elim (fun h => h2 ⟨e, h⟩) (fun h => h3 ⟨e, h⟩)⟩
    · rintro ⟨h1, h2⟩
      exact ⟨⟨h1, fun ⟨e, h⟩ => h2 ⟨e, Or.inl h⟩⟩, fun ⟨e, h⟩ => h2 ⟨e, Or.inr h⟩⟩

theorem saveChunk_queryData (env : Env) (c c1 : Cache) (queryHash : String) (chunk : Chunk)
    (h : saveChunk env c queryHash chunk = .ok c1) (q : String) :
    (c1.queryData q = none ↔ c.queryData q = none) ∧ ∀ p, p ∈ c.paths q → p ∈ c1.paths q := by
  unfold saveChunk at h
  cases hp : env.persist queryHash chunk with
  | none => rw [hp] at h; exact absurd h (by simp)
  | some path =>
    rw [hp] at h
    simp only [Except.ok.injEq] at h
    subst h
    unfold Cache.paths Cache.queryData
    simp only [lookupQuery_updateQuery]
    by_cases hq : q = queryHash
    · rw [if_pos hq]
      cases hl : lookupQuery q c.data with
      | none => simp
      | some qd =>
        simp only [Option.map_some', mem_put_keys]
        exact ⟨by simp, fun p hp => Or.inr hp⟩
    · rw [if_neg hq]
      exact ⟨Iff.rfl, fun p hp => hp⟩

theorem readSources_remove (env : Env) (r : String → Bool) (dst : Chunk)
    (l : List ChunkInfo) (acc : Metrics) :
    readSources { env with remove := r } dst l acc = readSources env dst l acc := by
  induction l generalizing acc with
  | nil => rfl
  | cons i rest ih => simp only [readSources, ih]

theorem writeMetrics_remove (env : Env) (r : String → Bool) (ms : Metrics) :
    writeMetrics { env with remove := r } ms = writeMetrics env ms := by
  induction ms with
  | nil => rfl
  | cons m rest ih => simp only [writeMetrics, ih]

/-- Whether `compact` returns `nil` or an error does not depend on what
`os.Remove` answers. -/
theorem compact_result_remove (env : Env) (r : String → Bool) (c : Cache)
    (t : CompactionTask) :
    (compact { env with remove := r } c t).1 = (compact env c t).1 := by
  unfold compact
  cases sortByTs t.src with
  | nil => rfl
  | cons first rest =>
    simp only [readSources_remove]
    cases readSources env (dstOf t first) (first :: rest) [] with
    | error e => rfl
    | ok ms =>
      simp only [writeMetrics_remove]
      cases writeMetrics env ms with
      | error e => rfl
      | ok u =>
        have hs : saveChunk { env with remove := r } c t.queryHash (dstOf t first) =
            saveChunk env c t.queryHash (dstOf t first) := rfl
        simp only [hs]
        cases saveChunk env c t.queryHash (dstOf t first) with
        | error e => rfl
        | ok c1 => rfl

theorem compact_catalog_after_success (env : Env) (c : Cache) (t : CompactionTask)
    (hq : c.queryData t.queryHash ≠ none) (hok : (compact env c t).1 = .ok ()) :
    (compact env c t).2.queryData t.queryHash ≠ none ∧
    (∀ s ∈ t.src, s.path ∉ (compact env c t).2.paths t.queryHash) ∧
    (∀ q p, p ∈ c.paths q →
      p ∈ (compact env c t).2.paths q ∨ (q = t.queryHash ∧ ∃ s ∈ t.src, s.path = p)) := by
  unfold compact at hok ⊢
  cases hsort : sortByTs t.src with
  | nil => rw [hsort] at hok; exact absurd hok (by simp)
  | cons first rest =>
    rw [hsort] at hok
    simp only at hok ⊢
    cases hread : readSources env (dstOf t first) (first :: rest) [] with
    | error e => rw [hread] at hok; exact absurd hok (by simp)
    | ok ms =>
      rw [hread] at hok
      simp only at hok ⊢
      cases hwrite : writeMetrics env ms with
      | error e => rw [hwrite] at hok; exact absurd hok (by simp)
      | ok u =>
        rw [hwrite] at hok
        simp only at hok ⊢
        cases hsave : saveChunk env c t.queryHash (dstOf t first) with
        | error e => rw [hsave] at hok; exact absurd hok (by simp)
        | ok c1 =>
          simp only
          have hc1 := saveChunk_queryData env c c1 t.queryHash (dstOf t first) hsave
          have hq1 : c1.queryData t.queryHash ≠ none := fun h => hq ((hc1 t.queryHash).1.1 h)
          cases hl : c1.queryData t.queryHash with
          | none => exact absurd hl hq1
          | some qd =>
            simp only
            have hrm := removeSources_queryData env t.queryHash (first :: rest) c1
            have hmem : ∀ s, s ∈ first :: rest ↔ s ∈ t.src := by
              intro s
              rw [← hsort]
              exact mem_sortByTs s t.src
            refine ⟨?_, ?_, ?_⟩
            · intro h
              exact hq1 ((hrm t.queryHash).1.1 h)
            · intro s hs hin
              have := ((hrm t.queryHash).2 s.path).1 hin
              exact this.2 ⟨rfl, s, (hmem s).2 hs, rfl⟩
            · intro q p hp
              have h1 := (hc1 q).2 p hp
              by_cases hx : q = t.queryHash ∧ ∃ s ∈ first :: rest, s.path = p
              · obtain ⟨hx1, s, hs, hsp⟩ := hx
                exact Or.inr ⟨hx1, s, (hmem s).1 hs, hsp⟩
              · exact Or.inl (((hrm q).2 p).2 ⟨h1, hx⟩)

/-- C9: for a task whose query hash has `QueryData`, if `compact` returns
`nil` then, whatever `os.Remove` answers for each file (an unlink failure does
not make `compact` fail), the query still has `QueryData`, none of the paths
of the task's sources is a key of its `chunksOnDisk` any more, and every path
that was a key of some query's `chunksOnDisk` before the call is still one,
unless it is the path of a source of the task and the query is the task's. -/
theorem C9_supersession (env : Env) (c : Cache) (t : CompactionTask)
    (hq : c.queryData t.queryHash ≠ none) (hok : (compact env c t).1 = .ok ()) :
    ∀ r : String → Bool,
      (compact { env with remove := r } c t).1 = .ok () ∧
      (compact { env with remove := r } c t).2.queryData t.queryHash ≠ none ∧
      (∀ s ∈ t.src, s.path ∉ (compact { env with remove := r } c t).2.paths t.queryHash) ∧
      (∀ q p, p ∈ c.paths q →
        p ∈ (compact { env with remove := r } c t).2.paths q ∨
          (q = t.queryHash ∧ ∃ s ∈ t.src, s.path = p)) := by
  intro r
  have hr : (compact { env with remove := r } c t).1 = .ok () := by
    rw [compact_result_remove]
    exact hok
  exact ⟨hr, compact_catalog_after_success { env with remove := r } c t hq hr⟩

/-- Scenario S1 with every unlink failing, as an instance of C9: `compact`
returns `nil`, the four sources leave the catalog, their files stay. -/
theorem C9_supersession_witness :
    (compact envUnlinkFails cacheS1 taskS1).1 = .ok () ∧
    (compact envUnlinkFails cacheS1 taskS1).2.disk = ["Q/dst", "a", "b", "c", "d"] ∧
    (compact envUnlinkFails cacheS1 taskS1).2.paths "Q" = ["Q/dst"] ∧
    (∀ s ∈ taskS1.src, s.path ∉ (compact envUnlinkFails cacheS1 taskS1).2.paths "Q") :=
  ⟨rfl, by decide, by decide,
    (C9_supersession envOk cacheS1 taskS1 (by decide) rfl (fun _ => false)).2.2.1⟩

theorem removeSources_entries (env : Env) (queryHash : String) (l : List ChunkInfo)
    (c : Cache) (qd1 : QueryData)
    (h : (removeSources env queryHash l c).queryData queryHash = some qd1) :
    ∃ qd, c.queryData queryHash = some qd ∧
      ∀ kv ∈ qd1.chunksOnDisk, kv ∈ qd.chunksOnDisk ∧ ∀ s ∈ l, s.path ≠ kv.1 := by
  induction l generalizing c with
  | nil => exact ⟨qd1, h, fun kv hkv => ⟨hkv, by simp⟩⟩
  | cons s rest ih =>
    unfold removeSources at h
    obtain ⟨qd2, hqd2, hall⟩ := ih _ h
    unfold Cache.queryData at hqd2
    simp only [lookupQuery_updateQuery, if_true] at hqd2
    cases hl : lookupQuery queryHash c.data with
    | none => rw [hl] at hqd2; exact absurd hqd2 (by simp)
    | some qd =>
      rw [hl] at hqd2
      simp only [Option.map_some', Option.some.injEq] at hqd2
      refine ⟨qd, hl, fun kv hkv => ?_⟩
      obtain ⟨h1, h2⟩ := hall kv hkv
      rw [← hqd2] at h1
      unfold QueryData.delete at h1
      simp only [List.mem_filter, decide_eq_true_eq] at h1
      refine ⟨h1.1, fun x hx => ?_⟩
      rcases List.mem_cons.1 hx with hx | hx
      · rw [hx]; exact fun e => h1.2 e.symm
      · exact h2 x hx

theorem saveChunk_entries (env : Env) (c c1 : Cache) (queryHash : String) (chunk : Chunk)
    (qd1 : QueryData) (h : saveChunk env c queryHash chunk = .ok c1)
    (h1 : c1.queryData queryHash = some qd1) :
    ∃ qd, c.queryData queryHash = some qd ∧
      ∀ kv ∈ qd1.chunksOnDisk, kv ∈ qd.chunksOnDisk ∨ kv.2.duration = chunk.duration := by
  unfold saveChunk at h
  cases hp : env.persist queryHash chunk with
  | none => rw [hp] at h; exact absurd h (by simp)
  | some path =>
    rw [hp] at h
    simp only [Except.ok.injEq] at h
    subst h
    unfold Cache.queryData at h1
    simp only [lookupQuery_updateQuery, if_true] at h1
    cases hl : lookupQuery queryHash c.data with
    | none => rw [hl] at h1; exact absurd h1 (by simp)
    | some qd =>
      rw [hl] at h1
      simp only [Option.map_some', Option.some.injEq] at h1
      refine ⟨qd, hl, fun kv hkv => ?_⟩
      rw [← h1] at hkv
      unfold QueryData.put at hkv
      simp only [List.mem_cons, List.mem_filter, decide_eq_true_eq] at hkv
      rcases hkv with hkv | hkv
      · right; rw [hkv]
      · left; exact hkv.1

/-- What takes the place of the idempotence of planning: once `compact` has
succeeded on a task the planner returned, planning the same compactor again on
the new catalog returns no task for that destination timestamp.  The catalog
entries of the query are keyed by the path of their chunk, and the compactor
has two different durations. -/
theorem replan_after_compact (queryJitter : String → Duration) (compactor : Compactor)
    (env : Env) (c : Cache) (queryHash : String) (qd : QueryData)
    (res : List CompactionTask) (t : CompactionTask)
    (hqd : c.queryData queryHash = some qd)
    (hkeys : ∀ kv ∈ qd.chunksOnDisk, kv.2.path = kv.1)
    (hdur : compactor.SrcChunkDuration ≠ compactor.DstChunkDuration)
    (hres : calcCompactionTasks queryJitter compactor queryHash qd.chunksOnDisk = some res)
    (ht : t ∈ res) (hok : (compact env c t).1 = .ok ()) :
    ∀ qd1 res1, (compact env c t).2.queryData queryHash = some qd1 →
      calcCompactionTasks queryJitter compactor queryHash qd1.chunksOnDisk = some res1 →
      ∀ u ∈ res1, u.dstChunk ≠ t.dstChunk := by
  obtain ⟨htq, htc, _, htsrc, _⟩ :=
    calcCompactionTasks_task queryJitter compactor queryHash qd.chunksOnDisk res hres t ht
  intro qd1 res1 hqd1 hres1 u hu hdst
  obtain ⟨_, _, hune, husrc, _⟩ :=
    calcCompactionTasks_task queryJitter compactor queryHash qd1.chunksOnDisk res1 hres1 u hu
  obtain ⟨x, hx⟩ := List.exists_mem_of_ne_nil _ hune
  rw [husrc, mem_bucketSrc] at hx
  obtain ⟨kv, hkv, hkvx⟩ := List.mem_map.1 hx.1
  -- the entries of the query after the call
  have hentries : (kv ∈ qd.chunksOnDisk ∨ kv.2.duration = compactor.DstChunkDuration) ∧
      ∀ s ∈ t.src, s.path ≠ kv.1 := by
    unfold compact at hok hqd1
    cases hsort : sortByTs t.src with
    | nil => rw [hsort] at hok; exact absurd hok (by simp)
    | cons first rest =>
      rw [hsort] at hok hqd1
      simp only at hok hqd1
      cases hread : readSources env (dstOf t first) (first :: rest) [] with
      | error e => rw [hread] at hok; exact absurd hok (by simp)
      | ok ms =>
        rw [hread] at hok hqd1
        simp only at hok hqd1
        cases hwrite : writeMetrics env ms with
        | error e => rw [hwrite] at hok; exact absurd hok (by simp)
        | ok v =>
          rw [hwrite] at hok hqd1
          simp only at hok hqd1
          cases hsave : saveChunk env c t.queryHash (dstOf t first) with
          | error e => rw [hsave] at hok; exact absurd hok (by simp)
          | ok c1 =>
            rw [hsave] at hqd1
            simp only at hqd1
            rw [htq] at hsave hqd1
            have hsome : c1.queryData queryHash ≠ none := by
              intro hn
              exact absurd ((saveChunk_queryData env c c1 queryHash _ hsave queryHash).1.1 hn)
                (by rw [hqd]; simp)
            cases hl : c1.queryData queryHash with
            | none => exact absurd hl hsome
            | some qd2 =>
              rw [hl] at hqd1
              simp only at hqd1
              have hq2 : (removeSources env queryHash (first :: rest) c1).queryData queryHash =
                  some qd1 := hqd1
              obtain ⟨qd3, hqd3, hall⟩ := removeSources_entries env queryHash _ c1 qd1 hq2
              rw [hl] at hqd3
              simp only [Option.some.injEq] at hqd3
              subst hqd3
              obtain ⟨qd4, hqd4, hall2⟩ := saveChunk_entries env c c1 queryHash _ qd2 hsave hl
              rw [hqd] at hqd4
              simp only [Option.some.injEq] at hqd4
              subst hqd4
              obtain ⟨h1, h2⟩ := hall kv hkv
              refine ⟨?_, fun s hs => h2 s ?_⟩
              · rcases hall2 kv h1 with h3 | h3
                · exact Or.inl h3
                · right
                  rw [h3, ← htc]
                  rfl
              · rw [← hsort]
                exact (mem_sortByTs s t.src).2 hs
  rcases hentries.1 with hin | hd
  · have hxin : x ∈ t.src := by
      rw [htsrc, mem_bucketSrc]
      exact ⟨List.mem_map.2 ⟨kv, hin, hkvx⟩, hx.2.1, hx.2.2.1, hx.2.2.2.trans hdst⟩
    have := hentries.2 x hxin
    rw [← hkvx] at this
    exact this (hkeys kv hin)
  · rw [hkvx] at hd
    exact hdur (hx.2.1.symm.trans hd)

/-- Scenario S1 from planning to publication: the planner returns the task
with `dstChunk = 0`; after `compact` the catalog holds the one chunk from 0 of
duration 14400, step 60 and `lastTs` 14340, and the four source files are
gone. -/
theorem scenario_S1 :
    calcCompactionTasks jitterZero hourly "Q" chunksS1 = some [taskS1] ∧
    (compact envOk cacheS1 taskS1).1 = .ok () ∧
    (compact envOk cacheS1 taskS1).2.data =
      [("Q", { chunksOnDisk := [("Q/dst", hourChunk4 "Q/dst" 0)] })] ∧
    (compact envOk cacheS1 taskS1).2.disk = ["Q/dst"] :=
  ⟨by decide, rfl, by decide, by decide⟩

/-! ## The RDS instance lookup -/

theorem splitFirst_eq_none (sep : Char) (l : List Char) :
    splitFirst sep l = none ↔ sep ∉ l := by
  induction l with
  | nil => simp [splitFirst]
  | cons ch rest ih =>
    unfold splitFirst
    by_cases h : ch = sep
    · simp [h]
    · rw [if_neg h]
      have hne : ¬ sep = ch := fun e => h e.symm
      cases hs : splitFirst sep rest with
      | none =>
        rw [hs] at ih
        simp only [List.mem_cons, hne, false_or, true_iff]
        exact ih.1 rfl
      | some ba =>
        rw [hs] at ih
        simp only [List.mem_cons, hne, false_or]
        constructor
        · intro h1; exact absurd h1 (by simp)
        · intro h1; exact absurd (ih.2 h1) (by simp)

/-- The nil case of `getOrCreateRdsInstance`: it returns nil exactly when the
id has no `/`, that is when splitting at the first `/` does not give two
parts. -/
theorem getOrCreateRdsInstance_nil_iff {W I : Type}
    (getOrCreateInstance : W → String → I × W) (w : W) (rdsId : String) :
    (getOrCreateRdsInstance getOrCreateInstance w rdsId).1 = none ↔ '/' ∉ rdsId.data := by
  unfold getOrCreateRdsInstance SplitN2
  cases hs : splitFirst '/' rdsId.data with
  | none =>
    simp only [true_iff]
    exact (splitFirst_eq_none _ _).1 hs
  | some ba =>
    obtain ⟨before, after⟩ := ba
    constructor
    · intro h
      exact absurd h (by simp)
    · intro hn
      have := (splitFirst_eq_none _ _).2 hn
      rw [hs] at this
      exact absurd this (by simp)

/-- C10 fails on the code: for the non-empty `rds_instance_id` "db", which has
no `/`, `getOrCreateRdsInstance` returns nil, and the body of `loadRds`
dereferences it at `instance.Rds` without a test. -/
theorem C10_nil_instance_dereferenced {W I : Type}
    (getOrCreateInstance : W → String → I × W) (w : W) :
    "db" ≠ "" ∧
    (getOrCreateRdsInstance getOrCreateInstance w "db").1 = none ∧
    loadRds getOrCreateInstance w [[("rds_instance_id", "db")]] = none := by
  refine ⟨by decide, rfl, rfl⟩

end Coroot
